import Mathlib

/-!
# F1viewer: command templating, title sanitising, race identifiers, colours and session tokens

A shallow embedding of the Go sources `cmd.go`, `util.go` and `auth.go`.

Go strings are byte sequences; they are modelled as lists of natural numbers
(one number below 256 per byte).  Functions of the Go standard library
(`strings`, `strconv`, `regexp`, `fmt`) and of `tcell` are modelled after their
documented behaviour, next to the repository functions that call them.
-/

namespace F1viewer

/-! ## Strings -/

/-- A Go `string`: a sequence of bytes. -/
abbrev GoString := List Nat

/-- The UTF-8 bytes of a string literal. -/
def utf8 (s : String) : GoString :=
  (s.toList.flatMap String.utf8EncodeChar).map UInt8.toNat

/-- The byte length of the UTF-8 sequence at the head of `s`, as computed by Go's
`utf8.DecodeRuneInString`: an invalid or truncated sequence has width 1. -/
def runeWidth : GoString → Nat
  | [] => 0
  | b0 :: rest =>
    let cont (b : Nat) : Bool := 0x80 ≤ b && b ≤ 0xBF
    -- size of the sequence and the accepted range of its second byte
    let cls : Option (Nat × Nat × Nat) :=
      if 0xC2 ≤ b0 && b0 ≤ 0xDF then some (2, 0x80, 0xBF)
      else if b0 = 0xE0 then some (3, 0xA0, 0xBF)
      else if (0xE1 ≤ b0 && b0 ≤ 0xEC) || b0 = 0xEE || b0 = 0xEF then some (3, 0x80, 0xBF)
      else if b0 = 0xED then some (3, 0x80, 0x9F)
      else if b0 = 0xF0 then some (4, 0x90, 0xBF)
      else if 0xF1 ≤ b0 && b0 ≤ 0xF3 then some (4, 0x80, 0xBF)
      else if b0 = 0xF4 then some (4, 0x80, 0x8F)
      else none
    match cls, rest with
    | none, _ => 1
    | some (2, lo, hi), b1 :: _ => if lo ≤ b1 && b1 ≤ hi then 2 else 1
    | some (3, lo, hi), b1 :: b2 :: _ => if lo ≤ b1 && b1 ≤ hi && cont b2 then 3 else 1
    | some (4, lo, hi), b1 :: b2 :: b3 :: _ =>
      if lo ≤ b1 && b1 ≤ hi && cont b2 && cont b3 then 4 else 1
    | some _, _ => 1

/-- The scan of `strings.ReplaceAll` for a non-empty `old`: `skip` counts the bytes of
the occurrence being replaced that are still to be passed over. -/
def replaceGo (old new : GoString) : Nat → GoString → GoString
  | _, [] => []
  | skip + 1, _ :: cs => replaceGo old new skip cs
  | 0, c :: cs =>
    if old.isPrefixOf (c :: cs) then new ++ replaceGo old new (old.length - 1) cs
    else c :: replaceGo old new 0 cs

/-- The scan of `strings.ReplaceAll` for the empty `old`: `new` is written after every
UTF-8 sequence; `left` counts the bytes of the current sequence still to be copied. -/
def replaceEmptyGo (new : GoString) : Nat → GoString → GoString
  | _, [] => []
  | left + 2, c :: cs => c :: replaceEmptyGo new (left + 1) cs
  | 1, c :: cs => c :: (new ++ replaceEmptyGo new 0 cs)
  | 0, c :: cs =>
    if runeWidth (c :: cs) ≤ 1 then c :: (new ++ replaceEmptyGo new 0 cs)
    else c :: replaceEmptyGo new (runeWidth (c :: cs) - 1) cs

/-- Go's `strings.ReplaceAll(s, old, new)`: every non-overlapping occurrence of `old`,
found from left to right, is replaced by `new`; an empty `old` matches at the start of
the string and after each UTF-8 sequence.  (The library returns `s` itself when
`old == new` or when there is no occurrence, which is the same value.) -/
def ReplaceAll (s old new : GoString) : GoString :=
  if old = [] then new ++ replaceEmptyGo new 0 s else replaceGo old new 0 s

/-- Go's `strings.Join(elems, sep)`. -/
def Join : List GoString → GoString → GoString
  | [], _ => []
  | a :: rest, sep => a ++ rest.flatMap (fun s => sep ++ s)

/-- The UTF-8 encodings of the code points for which Go's `unicode.IsSpace` holds:
U+0009..U+000D, U+0020, U+0085, U+00A0, U+1680, U+2000..U+200A, U+2028, U+2029,
U+202F, U+205F and U+3000. -/
def spaceEncodings : List GoString :=
  [[0x09], [0x0A], [0x0B], [0x0C], [0x0D], [0x20], [0xC2, 0x85], [0xC2, 0xA0],
   [0xE1, 0x9A, 0x80],
   [0xE2, 0x80, 0x80], [0xE2, 0x80, 0x81], [0xE2, 0x80, 0x82], [0xE2, 0x80, 0x83],
   [0xE2, 0x80, 0x84], [0xE2, 0x80, 0x85], [0xE2, 0x80, 0x86], [0xE2, 0x80, 0x87],
   [0xE2, 0x80, 0x88], [0xE2, 0x80, 0x89], [0xE2, 0x80, 0x8A],
   [0xE2, 0x80, 0xA8], [0xE2, 0x80, 0xA9], [0xE2, 0x80, 0xAF], [0xE2, 0x81, 0x9F],
   [0xE3, 0x80, 0x80]]

/-- The code points of `unicode.IsSpace`, in the order of `spaceEncodings`. -/
def spaceRunes : List Nat :=
  [0x09, 0x0A, 0x0B, 0x0C, 0x0D, 0x20, 0x85, 0xA0, 0x1680,
   0x2000, 0x2001, 0x2002, 0x2003, 0x2004, 0x2005, 0x2006, 0x2007, 0x2008, 0x2009, 0x200A,
   0x2028, 0x2029, 0x202F, 0x205F, 0x3000]

/-- Width of the white-space rune that `s` starts with when read through `encs`
(0 when `s` does not start with one).  A rune decoded from the front of a Go string is
white space exactly when the string starts with the rune's UTF-8 encoding; invalid bytes
decode to U+FFFD, which is not white space. -/
def spaceWidth (encs : List GoString) (s : GoString) : Nat :=
  match encs.find? (fun e => e.isPrefixOf s) with
  | some e => e.length
  | none => 0

/-- Removal of leading white-space runes; `skip` counts the bytes of the current rune
still to be dropped. -/
def trimGo (encs : List GoString) : Nat → GoString → GoString
  | _, [] => []
  | skip + 1, _ :: cs => trimGo encs skip cs
  | 0, c :: cs =>
    match spaceWidth encs (c :: cs) with
    | 0 => c :: cs
    | w + 1 => trimGo encs w cs

/-- Go's `strings.TrimLeftFunc(s, unicode.IsSpace)`. -/
def TrimLeftSpace (s : GoString) : GoString := trimGo spaceEncodings 0 s

/-- Go's `strings.TrimRightFunc(s, unicode.IsSpace)`: the last rune of a string is white
space exactly when the string ends with the rune's encoding, so the string is read
backwards against the reversed encodings. -/
def TrimRightSpace (s : GoString) : GoString :=
  (trimGo (spaceEncodings.map List.reverse) 0 s.reverse).reverse

/-- Go's `strings.TrimSpace(s)`: leading and trailing white space (as defined by
Unicode) removed. -/
def TrimSpace (s : GoString) : GoString := TrimRightSpace (TrimLeftSpace s)

/-! ## Regular expressions of `sanitizeFileName` -/

/-- The class `\s` of Go regular expressions: tab, newline, form feed, carriage return
and space. -/
def isRegexSpace (b : Nat) : Bool :=
  b = 0x09 || b = 0x0A || b = 0x0C || b = 0x0D || b = 0x20

/-- The character class of the regular expression `illegal`: `/` on every platform but
Windows, any of `<>:"/\|?*` on Windows. -/
def isIllegal (windows : Bool) (b : Nat) : Bool :=
  if windows then
    b = 0x3C || b = 0x3E || b = 0x3A || b = 0x22 || b = 0x2F || b = 0x5C || b = 0x7C
      || b = 0x3F || b = 0x2A
  else b = 0x2F

/-- `ReplaceAllString(s, repl)` for a regular expression that is one class of ASCII
characters: every match is a single byte. -/
def replaceAllClass (cls : Nat → Bool) (repl : GoString) : GoString → GoString
  | [] => []
  | c :: cs =>
    if cls c then repl ++ replaceAllClass cls repl cs else c :: replaceAllClass cls repl cs

/-- `ReplaceAllString(s, repl)` for the regular expression `cls+`: a match starts at the
first byte of the class and, being greedy, extends as far as the class does; `inMatch`
tells that the previous byte belongs to the match being replaced. -/
def replaceAllPlus (cls : Nat → Bool) (repl : GoString) : Bool → GoString → GoString
  | _, [] => []
  | inMatch, c :: cs =>
    if cls c then
      if inMatch then replaceAllPlus cls repl true cs
      else repl ++ replaceAllPlus cls repl true cs
    else c :: replaceAllPlus cls repl false cs

/-- `sanitizeFileName` of `util.go`; `windows` is `runtime.GOOS == "windows"`. -/
def sanitizeFileName (windows : Bool) (s : GoString) : GoString :=
  let s := replaceAllClass (isIllegal windows) (utf8 " ") s
  let s := replaceAllPlus isRegexSpace (utf8 " ") false s
  let s := TrimSpace s
  s

/-- The replacement of every maximal run of bytes of the class `cls` by one space, as
the specification words it: a byte of the class becomes a space and the rest of its run
is dropped. -/
def collapseRuns (cls : Nat → Bool) : GoString → GoString
  | [] => []
  | c :: cs =>
    if cls c then 0x20 :: collapseRuns cls (cs.dropWhile cls) else c :: collapseRuns cls cs
termination_by s => s.length
decreasing_by
  all_goals simp_wf
  exact Nat.lt_succ_of_le (List.dropWhile_suffix _).length_le

/-- The pipeline of the specification for `sanitizeFileName`: every illegal character
becomes a space, every maximal run of `\s` becomes one space, leading and trailing white
space is trimmed. -/
def sanitizeSpec (windows : Bool) (s : GoString) : GoString :=
  TrimSpace (collapseRuns isRegexSpace (s.map (fun c => if isIllegal windows c then 0x20 else c)))

/-- A string made of white-space runes only: a concatenation of their encodings. -/
def IsSpaceRun (s : GoString) : Prop :=
  ∃ es : List GoString, (∀ e ∈ es, e ∈ spaceEncodings) ∧ es.flatten = s

/-- The bytes `sanitizeFileName` neither replaces nor collapses: those outside the class
`illegal` and outside `\s`. -/
def isOther (windows : Bool) (b : Nat) : Bool := !isIllegal windows b && !isRegexSpace b

/-! ## Command templates (`cmd.go`) -/

/-- Go's `error` values: `errors.New(msg)` and `fmt.Errorf("<msg>: %w", cause)`. -/
inductive GoError where
  | new (msg : GoString)
  | wrap (msg : GoString) (cause : GoError)
  deriving DecidableEq, Repr

/-- The text of an error, `err.Error()`. -/
def GoError.Error : GoError → GoString
  | .new msg => msg
  | .wrap msg cause => msg ++ utf8 ": " ++ cause.Error

/-- The wrapped error, `errors.Unwrap(err)`. -/
def GoError.Unwrap : GoError → Option GoError
  | .new _ => none
  | .wrap _ cause => some cause

/-- The struct `Titles`. -/
structure Titles where
  PerspectiveTitle : GoString
  SessionTitle : GoString
  EventTitle : GoString
  CategoryTitle : GoString
  EpisodeTitle : GoString
  SeasonTitle : GoString
  deriving DecidableEq, Repr

/-- The method `Titles.String` of `cmd.go`. -/
def Titles.String (windows : Bool) (t : Titles) : GoString :=
  let s : List GoString := []
  let s := if t.SeasonTitle ≠ [] then s ++ [t.SeasonTitle] else s
  let s := if t.EventTitle ≠ [] then s ++ [t.EventTitle] else s
  let s := if t.SessionTitle ≠ [] then s ++ [t.SessionTitle] else s
  let s := if t.PerspectiveTitle ≠ [] then s ++ [t.PerspectiveTitle] else s
  let s := if t.EpisodeTitle ≠ [] then s ++ [t.EpisodeTitle] else s
  sanitizeFileName windows (Join s (utf8 " - "))

/-- The struct `command`. -/
structure command where
  Title : GoString
  Command : List GoString
  deriving DecidableEq, Repr

/-- The struct `commandContext`. -/
structure commandContext where
  EpID : GoString
  CustomOptions : command
  Titles : Titles
  deriving DecidableEq, Repr

/-- The body of the loop of `runCustomCommand`: the eight assignments to
`tmpCommand[i]`. -/
def substituteAt (windows : Bool) (url : GoString) (t : Titles) (tmpCommand : List GoString)
    (i : Nat) : List GoString :=
  let tmpCommand := tmpCommand.set i (ReplaceAll (tmpCommand.getD i []) (utf8 "$url") url)
  let tmpCommand :=
    tmpCommand.set i (ReplaceAll (tmpCommand.getD i []) (utf8 "$session") t.SessionTitle)
  let tmpCommand :=
    tmpCommand.set i (ReplaceAll (tmpCommand.getD i []) (utf8 "$event") t.EventTitle)
  let tmpCommand :=
    tmpCommand.set i (ReplaceAll (tmpCommand.getD i []) (utf8 "$perspective") t.PerspectiveTitle)
  let tmpCommand :=
    tmpCommand.set i (ReplaceAll (tmpCommand.getD i []) (utf8 "$category") t.CategoryTitle)
  let tmpCommand :=
    tmpCommand.set i (ReplaceAll (tmpCommand.getD i []) (utf8 "$episode") t.EpisodeTitle)
  let tmpCommand :=
    tmpCommand.set i (ReplaceAll (tmpCommand.getD i []) (utf8 "$season") t.SeasonTitle)
  let tmpCommand :=
    tmpCommand.set i (ReplaceAll (tmpCommand.getD i []) (utf8 "$title") (t.String windows))
  tmpCommand

/-- What a call of `runCustomCommand` does. -/
inductive Outcome where
  /-- `getPlayableURL` failed and its error was returned; nothing else happened. -/
  | urlError (err : GoError)
  /-- The index expression `tmpCommand[0]` was out of range. -/
  | indexPanic (template tmpCommand : List GoString)
  /-- `runCmd` was called on `exec.Command(name, args...)` and returned `result`;
  `template` is `cc.CustomOptions.Command` and `tmpCommand` the substituted copy, both
  as they are at that point. -/
  | ran (template tmpCommand : List GoString) (name : GoString) (args : List GoString)
      (result : Option GoError)
  deriving DecidableEq, Repr

/-- `runCustomCommand` of `cmd.go`.  `getPlayableURL` (defined outside the files at hand)
and `runCmd` (which starts a process) are parameters; `authtoken` is
`session.authtoken`. -/
def runCustomCommand (windows : Bool)
    (getPlayableURL : GoString → GoString → Except GoError GoString)
    (runCmd : GoString → List GoString → Option GoError)
    (authtoken : GoString) (cc : commandContext) : Outcome :=
  match getPlayableURL cc.EpID authtoken with
  | .error err => .urlError err
  | .ok url =>
    -- make + copy
    let tmpCommand : List GoString := List.replicate cc.CustomOptions.Command.length []
    let tmpCommand := (List.range tmpCommand.length).foldl
      (fun tmp i => tmp.set i (cc.CustomOptions.Command.getD i [])) tmpCommand
    -- for i := range tmpCommand
    let tmpCommand := (List.range tmpCommand.length).foldl
      (fun tmp i => substituteAt windows url cc.Titles tmp i) tmpCommand
    match tmpCommand with
    | [] => .indexPanic cc.CustomOptions.Command tmpCommand
    | name :: args => .ran cc.CustomOptions.Command tmpCommand name args (runCmd name args)

/-- The substituted argument vector a call built, if it got that far. -/
def Outcome.tmpCommand? : Outcome → Option (List GoString)
  | .urlError _ => none
  | .indexPanic _ tmpCommand => some tmpCommand
  | .ran _ tmpCommand _ _ _ => some tmpCommand

/-- The command template as the call left it, if it got past URL resolution. -/
def Outcome.template? : Outcome → Option (List GoString)
  | .urlError _ => none
  | .indexPanic template _ => some template
  | .ran template _ _ _ _ => some template

/-- The eight replacements of the specification applied to one token, in its order:
`$url`, `$session`, `$event`, `$perspective`, `$category`, `$episode`, `$season`,
`$title`. -/
def substituteToken (windows : Bool) (u : GoString) (t : Titles) (token : GoString) :
    GoString :=
  let token := ReplaceAll token (utf8 "$url") u
  let token := ReplaceAll token (utf8 "$session") t.SessionTitle
  let token := ReplaceAll token (utf8 "$event") t.EventTitle
  let token := ReplaceAll token (utf8 "$perspective") t.PerspectiveTitle
  let token := ReplaceAll token (utf8 "$category") t.CategoryTitle
  let token := ReplaceAll token (utf8 "$episode") t.EpisodeTitle
  let token := ReplaceAll token (utf8 "$season") t.SeasonTitle
  ReplaceAll token (utf8 "$title") (t.String windows)

/-! ## Numbers (`strconv`, `fmt`) -/

/-- The two causes of a `strconv.NumError`: `ErrSyntax` and `ErrRange`. -/
inductive NumErr where
  | errSyntax
  | errRange
  deriving DecidableEq, Repr

/-- The function `lower` of `strconv`: `c | ('x' - 'X')`. -/
def lower (c : Nat) : Nat := c ||| 0x20

/-- The value of the byte `c` as a digit in `strconv.ParseUint`: decimal digits and
letters of either case. -/
def digitVal (c : Nat) : Option Nat :=
  if 0x30 ≤ c ∧ c ≤ 0x39 then some (c - 0x30)
  else if 0x61 ≤ lower c ∧ lower c ≤ 0x7A then some (lower c - 0x61 + 10)
  else none

/-- The loop of `strconv.ParseUint` for an explicit base (no prefix, no underscores),
on `uint64` arithmetic; `maxVal` is `1<<bitSize - 1`. -/
def parseUintLoop (base maxVal : Nat) : Nat → GoString → Nat × Option NumErr
  | n, [] => (n, none)
  | n, c :: cs =>
    match digitVal c with
    | none => (0, some .errSyntax)
    | some d =>
      if d ≥ base then (0, some .errSyntax)
      else if n ≥ (2 ^ 64 - 1) / base + 1 then (maxVal, some .errRange)
      else
        let n := n * base % 2 ^ 64
        let n1 := (n + d) % 2 ^ 64
        if n1 < n ∨ n1 > maxVal then (maxVal, some .errRange)
        else parseUintLoop base maxVal n1 cs

/-- Go's `strconv.ParseUint(s, base, bitSize)` for `2 ≤ base ≤ 36` and
`1 ≤ bitSize ≤ 64`. -/
def ParseUint (s : GoString) (base bitSize : Nat) : Nat × Option NumErr :=
  if s = [] then (0, some .errSyntax)
  else parseUintLoop base (2 ^ bitSize - 1) 0 s

/-- Go's `strconv.ParseInt(s, base, bitSize)` for `2 ≤ base ≤ 36` and
`1 ≤ bitSize ≤ 64`. -/
def ParseInt (s : GoString) (base bitSize : Nat) : Int × Option NumErr :=
  match s with
  | [] => (0, some .errSyntax)
  | c :: cs =>
    let neg : Bool := c = 0x2D
    let s := if c = 0x2B ∨ c = 0x2D then cs else c :: cs
    match ParseUint s base bitSize with
    | (_, some .errSyntax) => (0, some .errSyntax)
    | (un, _) =>
      let cutoff : Nat := 2 ^ (bitSize - 1)
      if !neg ∧ un ≥ cutoff then ((cutoff : Int) - 1, some .errRange)
      else if neg ∧ un > cutoff then (-(cutoff : Int), some .errRange)
      else (if neg then -(un : Int) else (un : Int), none)

/-- The loop of the fast path of `strconv.Atoi`; `ch -= '0'` is byte arithmetic. -/
def atoiLoop : Int → GoString → Int × Option NumErr
  | n, [] => (n, none)
  | n, ch :: rest =>
    let ch := (ch + 256 - 0x30) % 256
    if ch > 9 then (0, some .errSyntax) else atoiLoop (n * 10 + ch) rest

/-- Go's `strconv.Atoi(s)` where `int` has 64 bits. -/
def Atoi (s : GoString) : Int × Option NumErr :=
  if 0 < s.length ∧ s.length < 19 then
    match s with
    | [] => (0, some .errSyntax)
    | c :: cs =>
      let digits := if c = 0x2D ∨ c = 0x2B then cs else c :: cs
      if digits.length < 1 then (0, some .errSyntax)
      else
        match atoiLoop 0 digits with
        | (_, some e) => (0, some e)
        | (n, none) => (if c = 0x2D then -n else n, none)
  else ParseInt s 10 64

/-- The conversion `int32(x)`, as a 32-bit pattern. -/
def toInt32Bits (x : Int) : Nat := (x % 2 ^ 32).toNat

/-- The signed value of a 32-bit pattern. -/
def int32Value (bits : Nat) : Int := if bits < 2 ^ 31 then (bits : Int) else (bits : Int) - 2 ^ 32

/-- The digit `"0123456789abcdef"[d]`. -/
def hexDigit (d : Nat) : Nat := if d < 10 then 0x30 + d else 0x61 + (d - 10)

/-- The hexadecimal digits of `u`, most significant first, as `fmt` writes them; `fuel`
bounds the number of digits (8 for a 32-bit magnitude). -/
def hexDigits : Nat → Nat → GoString
  | 0, _ => []
  | fuel + 1, u => if u < 16 then [hexDigit u] else hexDigits fuel (u / 16) ++ [hexDigit (u % 16)]

/-- Go's `fmt.Sprintf("%06x", v)` for an `int32` value `v`: zero padding to width 6, with
the sign taking one of the six places. -/
def sprintfHex06 (v : Int) : GoString :=
  let negative : Bool := v < 0
  let prec := if negative then 5 else 6
  let digits := hexDigits 8 v.natAbs
  let padded := List.replicate (prec - digits.length) 0x30 ++ digits
  if negative then 0x2D :: padded else padded

/-! ## Race identifiers (`util.go`) -/

/-- `getYearAndRace` of `util.go`. -/
def getYearAndRace (input : GoString) : GoString × GoString × Option GoError :=
  let fullYear : GoString := []
  let raceNumber : GoString := []
  if input.length < 4 then (fullYear, raceNumber, some (.new (utf8 "not long enough")))
  else
    match (Atoi (input.take 4)).2 with
    | some _ => (fullYear, raceNumber, some (.new (utf8 "not a valid YearRaceID")))
    | none =>
      if input.take 4 = utf8 "2018" ∨ input.take 4 = utf8 "2019" then
        (input.take 4, utf8 "0", none)
      else
        let year := input.take 2
        let intYear := (Atoi year).1
        let fullYear := if intYear < 30 then utf8 "20" ++ year else utf8 "19" ++ year
        let raceNumber := (input.drop 2).take 2
        (fullYear, raceNumber, none)

/-! ## Colours (`util.go`, `tcell`) -/

/-- A `tcell.Color`: an `int32`, held as its 32-bit pattern. -/
abbrev Color := Nat

/-- The constant `tcell.ColorIsRGB`, `1 << 24`. -/
def ColorIsRGB : Color := 2 ^ 24

/-- The function `tcell.NewHexColor`: `ColorIsRGB | Color(v)`. -/
def NewHexColor (v : Nat) : Color := ColorIsRGB ||| v

/-- The method `tcell.Color.Hex`: the 24-bit RGB value of an RGB colour, the entry of the
table `ColorValues` for a named colour, `-1` for an unknown colour. -/
def Color.Hex (ColorValues : Color → Option Nat) (c : Color) : Nat :=
  if c &&& ColorIsRGB ≠ 0 then c &&& 0xFFFFFF
  else
    match ColorValues c with
    | some v => v
    | none => 2 ^ 32 - 1

/-- `hexStringToColor` of `util.go`. -/
def hexStringToColor (hex : GoString) : Color :=
  let hex := ReplaceAll hex (utf8 "#") (utf8 "")
  let color := (ParseInt hex 16 32).1
  NewHexColor (toInt32Bits color)

/-- `colortoHexString` of `util.go`. -/
def colortoHexString (ColorValues : Color → Option Nat) (color : Color) : GoString :=
  utf8 "#" ++ sprintfHex06 (int32Value (color.Hex ColorValues))

/-- The value of a lower-case hexadecimal digit. -/
def lowerHexValue (c : Nat) : Nat := if c ≤ 0x39 then c - 0x30 else c - 0x61 + 10

/-- Whether `c` is one of `0`..`9`, `a`..`f`. -/
def isLowerHex (c : Nat) : Bool := (0x30 ≤ c && c ≤ 0x39) || (0x61 ≤ c && c ≤ 0x66)

/-- The integer denoted by a string of lower-case hexadecimal digits. -/
def hexValue (h : GoString) : Nat := h.foldl (fun acc c => 16 * acc + lowerHexValue c) 0

/-! ## Sessions (`auth.go`) -/

/-- The field `Data` of the struct `authResponse`. -/
structure authData where
  SubscriptionStatus : GoString
  SubscriptionToken : GoString
  deriving DecidableEq, Repr

/-- The struct `authResponse`. -/
structure authResponse where
  Data : authData
  deriving DecidableEq, Repr

/-- The struct `tokenResponse`. -/
structure tokenResponse where
  PlanUrls : List GoString
  Token : GoString
  UserIsVip : Bool
  Oauth2AccessToken : GoString
  deriving DecidableEq, Repr

/-- The two network calls of `auth.go`, as stubs: `authenticate(username, password)` and
`getToken(accessToken)`. -/
structure AuthClient where
  authenticate : GoString → GoString → Except GoError authResponse
  getToken : GoString → Except GoError tokenResponse

/-- A call made to the `AuthClient`, with its arguments. -/
inductive AuthCall where
  | authenticate (username password : GoString)
  | getToken (accessToken : GoString)
  deriving DecidableEq, Repr

/-- The method `Remove` of the interface `keyring.Keyring`, on a store whose states are
the values of `σ`: the error it returns, if any, and the store afterwards. -/
structure Keyring (σ : Type) where
  Remove : σ → GoString → Option GoError × σ

/-- A line written by `logError` or `logInfo`. -/
inductive LogLine where
  | error (text : GoString)
  | info (text : GoString)
  deriving DecidableEq, Repr

/-- Modelled from the spec: the struct `viewerSession` is declared outside the files at
hand.  It holds `username`, `password`, `authtoken` (empty when logged out) and `ring`,
the handle of the credential store (`none` for nil); `logged` collects what `logError`
and `logInfo` write. -/
structure viewerSession (σ : Type) where
  username : GoString
  password : GoString
  authtoken : GoString
  ring : Option σ
  logged : List LogLine

/-- `logError` of `util.go`; `text` is `fmt.Sprint(v...)`. -/
def viewerSession.logError {σ : Type} (session : viewerSession σ) (text : GoString) :
    viewerSession σ :=
  { session with logged := session.logged ++ [.error text] }

/-- `logInfo` of `util.go`; `text` is `fmt.Sprint(v...)`. -/
def viewerSession.logInfo {σ : Type} (session : viewerSession σ) (text : GoString) :
    viewerSession σ :=
  { session with logged := session.logged ++ [.info text] }

/-- The method `login` of `auth.go`: the token and the error it returns, and the calls it
made to the `AuthClient`, in order.  It assigns no field of the session. -/
def viewerSession.login {σ : Type} (api : AuthClient) (session : viewerSession σ) :
    (GoString × Option GoError) × List AuthCall :=
  match api.authenticate session.username session.password with
  | .error err =>
    (([], some (.wrap (utf8 "could not log in") err)),
      [.authenticate session.username session.password])
  | .ok auth =>
    match api.getToken auth.Data.SubscriptionToken with
    | .error err =>
      (([], some (.wrap (utf8 "could not authenticate in") err)),
        [.authenticate session.username session.password,
         .getToken auth.Data.SubscriptionToken])
    | .ok token =>
      ((token.Token, none),
        [.authenticate session.username session.password,
         .getToken auth.Data.SubscriptionToken])

/-- The method `testAuth` of `auth.go`. -/
def viewerSession.testAuth {σ : Type} (api : AuthClient) (session : viewerSession σ) :
    viewerSession σ :=
  match (session.login api).1 with
  | (_, some err) => session.logError err.Error
  | (token, none) =>
    let session := { session with authtoken := token }
    session.logInfo (utf8 "login successful!")

/-- The method `removeCredentials` of `auth.go`: the error it returns and the session
afterwards. -/
def viewerSession.removeCredentials {σ : Type} (kr : Keyring σ) (session : viewerSession σ) :
    Option GoError × viewerSession σ :=
  match session.ring with
  | none => (some (.new (utf8 "No keyring configured")), session)
  | some ring =>
    match kr.Remove ring (utf8 "username") with
    | (some err, ring) =>
      (some (.wrap (utf8 "Could not remove username") err), { session with ring := some ring })
    | (none, ring) =>
      let session := { session with ring := some ring, username := [] }
      match kr.Remove ring (utf8 "password") with
      | (some err, ring) =>
        (some (.wrap (utf8 "Could not remove password") err),
          { session with ring := some ring })
      | (none, ring) =>
        (none, { session with ring := some ring, password := [] })

/-- The method `logout` of `auth.go`. -/
def viewerSession.logout {σ : Type} (kr : Keyring σ) (session : viewerSession σ) :
    viewerSession σ :=
  match session.removeCredentials kr with
  | (some err, session) =>
    let session := session.logError (utf8 "Failed to log out:" ++ err.Error)
    { session with authtoken := [] }
  | (none, session) =>
    let session := session.logInfo (utf8 "logged out!")
    { session with authtoken := [] }

/-- One call on a session: `testAuth` with the outcomes of the two stubbed network calls,
or `logout`. -/
inductive Event where
  | testAuth (auth : Except GoError authResponse) (token : Except GoError tokenResponse)
  | logout

/-- The `AuthClient` whose calls return the given outcomes. -/
def stubClient (auth : Except GoError authResponse) (token : Except GoError tokenResponse) :
    AuthClient :=
  { authenticate := fun _ _ => auth, getToken := fun _ => token }

/-- The session after one call. -/
def viewerSession.step {σ : Type} (kr : Keyring σ) (session : viewerSession σ) :
    Event → viewerSession σ
  | .testAuth auth token => session.testAuth (stubClient auth token)
  | .logout => session.logout kr

/-- The session after a sequence of calls. -/
def viewerSession.run {σ : Type} (kr : Keyring σ) (session : viewerSession σ)
    (events : List Event) : viewerSession σ :=
  events.foldl (viewerSession.step kr) session

/-- The bearer token a `testAuth` call obtains: `some` when both network calls
succeed. -/
def Event.token? : Event → Option GoString
  | .testAuth (.ok _) (.ok token) => some token.Token
  | _ => none

/-- Whether the call is a `logout`. -/
def Event.isLogout : Event → Bool
  | .logout => true
  | _ => false

/-- The right-hand side of the token invariant as the specification words it: the most
recent login attempt of the sequence succeeded and no logout was called after it. -/
def lastAttemptSucceeded (events : List Event) : Bool :=
  match (events.reverse.takeWhile (fun e => !e.isLogout)).head? with
  | some e => e.token?.isSome
  | none => false

/-- The calls made after the last `logout` (all of them when there is none). -/
def sinceLogout (events : List Event) : List Event :=
  (events.reverse.takeWhile (fun e => !e.isLogout)).reverse

/-- The bearer token of the most recent successful login attempt made after the last
`logout`, if there is one. -/
def lastToken? (events : List Event) : Option GoString :=
  (sinceLogout events).reverse.findSome? Event.token?

/-! ## Placeholders -/

/-- The eight recognised placeholders, in the order `runCustomCommand` replaces them. -/
def placeholders : List GoString :=
  [utf8 "$url", utf8 "$session", utf8 "$event", utf8 "$perspective", utf8 "$category",
   utf8 "$episode", utf8 "$season", utf8 "$title"]

/-- Whether every `$` of a token begins one of the strings of `L`. -/
def dollarsBegin (L : List GoString) : GoString → Bool
  | [] => true
  | c :: cs => (c != 0x24 || L.any (fun q => q.isPrefixOf (c :: cs))) && dollarsBegin L cs

/-- The command context of the examples: one template, titles, no episode id. -/
def exampleContext (template : List GoString) (t : Titles) : commandContext :=
  { EpID := [], CustomOptions := { Title := [], Command := template }, Titles := t }

/-- Whether `b` is an ASCII decimal digit. -/
def isDigit (b : Nat) : Bool := 0x30 ≤ b && b ≤ 0x39

/-- A session without credential store, for the examples. -/
def exampleSession (username password authtoken : GoString) : viewerSession Unit :=
  { username := username, password := password, authtoken := authtoken, ring := none,
    logged := [] }

/-- A store on which every removal succeeds, for the examples. -/
def exampleKeyring : Keyring Unit := { Remove := fun ring _ => (none, ring) }

/-- A successful answer of `authenticate`, for the examples. -/
def exampleAuth : Except GoError authResponse :=
  .ok { Data := { SubscriptionStatus := utf8 "active", SubscriptionToken := utf8 "sub" } }

/-- A successful answer of `getToken` with the bearer token `k`, for the examples. -/
def exampleToken (k : GoString) : Except GoError tokenResponse :=
  .ok { PlanUrls := [], Token := k, UserIsVip := false, Oauth2AccessToken := [] }

/-- A session with a credential store, for the examples. -/
def exampleStoreSession (username password authtoken : GoString) : viewerSession Unit :=
  { username := username, password := password, authtoken := authtoken, ring := some (),
    logged := [] }

/-- A store on which the removal of `failing` fails and every other removal succeeds, for
the examples. -/
def exampleFailingKeyring (failing : GoString) : Keyring Unit :=
  { Remove := fun ring key =>
      if key = failing then (some (.new (utf8 "The specified item could not be found")), ring)
      else (none, ring) }

/-! ## Progress indicator (`util.go`) -/

/-- The fields of a `tview.TreeNode` that `blinkNode` reads and writes. -/
structure TreeNode where
  text : GoString
  color : Color
  deriving DecidableEq, Repr

/-- What the `select` of `blinkNode` receives: a tick of the ticker or the signal on
`done`. -/
inductive BlinkEvent where
  | tick
  | done
  deriving DecidableEq, Repr

/-- The node and the local variables of a running `blinkNode`; `draws` counts the calls of
`session.app.Draw()` and `returned` tells that the function has returned. -/
structure blinkState where
  node : TreeNode
  originalText : GoString
  originalColor : Color
  color1 : Color
  color2 : Color
  draws : Nat
  returned : Bool
  deriving DecidableEq, Repr

/-- The statements of `blinkNode` before its loop; `LoadingColor` is
`activeTheme.LoadingColor`. -/
def blinkNodeEntry (LoadingColor : Color) (node : TreeNode) : blinkState :=
  let originalText := node.text
  let originalColor := node.color
  let color1 := originalColor
  let color2 := LoadingColor
  let node := { node with text := utf8 "loading..." }
  { node := node, originalText := originalText, originalColor := originalColor,
    color1 := color1, color2 := color2, draws := 0, returned := false }

/-- One round of the loop of `blinkNode`: the case of `select` that the event chooses. -/
def blinkNodeStep (s : blinkState) : BlinkEvent → blinkState
  | .done =>
    let node := { s.node with text := s.originalText }
    let node := { node with color := s.originalColor }
    { s with node := node, draws := s.draws + 1, returned := true }
  | .tick =>
    let node := { s.node with color := s.color2 }
    { s with node := node, draws := s.draws + 1, color1 := s.color2, color2 := s.color1 }

/-- The states a running `blinkNode` goes through on the events it receives: the state it
is in, then the states after each round, up to the round that returns. -/
def blinkNodeTrace : blinkState → List BlinkEvent → List blinkState
  | s, [] => [s]
  | s, e :: es => if s.returned then [s] else s :: blinkNodeTrace (blinkNodeStep s e) es

/-- `blinkNode` of `util.go` on the events its `select` receives, as the list of states from
entry on. -/
def blinkNode (LoadingColor : Color) (node : TreeNode) (events : List BlinkEvent) :
    List blinkState :=
  blinkNodeTrace (blinkNodeEntry LoadingColor node) events

/-- What the second goroutine of `withBlink` does. -/
structure blinkOutcome where
  /-- The node as it is on entry of the loop and after each round before the return. -/
  shown : List TreeNode
  /-- The node when `blinkNode` returned, if it did. -/
  restored : Option TreeNode
  /-- The node as `after` found it, if `after` was called. -/
  afterSaw : Option TreeNode
  deriving DecidableEq, Repr

/-- The second goroutine of `withBlink` of `util.go`: `blinkNode`, then `after` when it is
not nil (`hasAfter`).  The first goroutine runs `fn` and then sends on `done`; `events` is
what the `select` of `blinkNode` receives meanwhile. -/
def withBlink (LoadingColor : Color) (node : TreeNode) (hasAfter : Bool)
    (events : List BlinkEvent) : blinkOutcome :=
  let states := blinkNode LoadingColor node events
  match states.getLast? with
  | none => { shown := [], restored := none, afterSaw := none }
  | some last =>
    if last.returned then
      { shown := states.dropLast.map (fun s => s.node), restored := some last.node,
        afterSaw := if hasAfter then some last.node else none }
    else
      { shown := states.map (fun s => s.node), restored := none, afterSaw := none }

/-- The events of a unit of work during which the ticker fires `n` times: `n` ticks, then
the signal on `done`. -/
def ticksThenDone (n : Nat) : List BlinkEvent := List.replicate n .tick ++ [.done]

/-- Whether the call ended in the out-of-range panic of `tmpCommand[0]`. -/
def Outcome.isIndexPanic : Outcome → Bool
  | .indexPanic _ _ => true
  | _ => false

/-- The colour violet (`#ee82ee`) as an RGB colour, for the examples. -/
def exampleViolet : Color := NewHexColor 0xEE82EE

/-- A loading colour (`#ff0000`), for the examples. -/
def exampleLoadingColor : Color := NewHexColor 0xFF0000

/-! ## Lemmas on lists -/

/-- A loop over the indices below `k` that rewrites each element in place. -/
theorem foldl_range_set {α : Type} (F : Nat → α → α) (d : α) (l : List α) (k : Nat) :
    ((List.range k).foldl (fun tmp i => tmp.set i (F i (tmp.getD i d))) l).length = l.length ∧
    ∀ j, ((List.range k).foldl (fun tmp i => tmp.set i (F i (tmp.getD i d))) l)[j]? =
      if j < k then l[j]?.map (F j) else l[j]? := by
  induction k with
  | zero => simp
  | succ k ih =>
    obtain ⟨hlen, hget⟩ := ih
    rw [List.range_succ, List.foldl_append]
    simp only [List.foldl_cons, List.foldl_nil, List.length_set]
    refine ⟨hlen, fun j => ?_⟩
    rw [List.getElem?_set]
    by_cases hjk : k = j
    · subst hjk
      simp only [if_true, Nat.lt_succ_self, hlen]
      by_cases hk : k < l.length
      · have h1 := hget k
        simp only [Nat.lt_irrefl, if_false] at h1
        rw [List.getD_eq_getElem?_getD, h1]
        simp [hk, List.getElem?_eq_getElem hk]
      · simp [hk, List.getElem?_eq_none (Nat.le_of_not_lt hk)]
    · rw [if_neg hjk, hget j]
      by_cases hj : j < k
      · simp [hj, Nat.lt_succ_of_lt hj]
      · have : ¬ j < k + 1 := by omega
        simp [hj, this]

/-- A loop over all indices that rewrites each element in place is a `map`. -/
theorem foldl_range_set_eq_map {α : Type} (f : α → α) (d : α) (l : List α) :
    (List.range l.length).foldl (fun tmp i => tmp.set i (f (tmp.getD i d))) l = l.map f := by
  obtain ⟨_, hget⟩ := foldl_range_set (fun _ => f) d l l.length
  apply List.ext_getElem?
  intro j
  rw [hget j]
  by_cases hj : j < l.length
  · simp [hj]
  · simp [hj, List.getElem?_eq_none (Nat.le_of_not_lt hj)]

/-! ## Command substitution -/

/-- The loop body of `runCustomCommand` rewrites the token at index `i` and nothing
else. -/
theorem substituteAt_eq_set (windows : Bool) (u : GoString) (t : Titles)
    (tmp : List GoString) (i : Nat) :
    substituteAt windows u t tmp i = tmp.set i (substituteToken windows u t (tmp.getD i [])) := by
  by_cases hi : i < tmp.length
  · have hget : ∀ (l : List GoString) (x : GoString), i < l.length → (l.set i x).getD i [] = x := by
      intro l x hl
      simp [List.getD_eq_getElem?_getD, List.getElem?_set, hl]
    simp only [substituteAt, substituteToken, List.set_set, hget, List.length_set, hi]
  · have hset : ∀ x : GoString, tmp.set i x = tmp := fun x =>
      List.set_eq_of_length_le (Nat.le_of_not_lt hi)
    simp only [substituteAt, hset]

/-- The `make` and `copy` of `runCustomCommand` yield a copy of the template. -/
theorem copy_template (template : List GoString) :
    (List.range (List.replicate template.length ([] : GoString)).length).foldl
      (fun tmp i => tmp.set i (template.getD i [])) (List.replicate template.length []) =
      template := by
  obtain ⟨hlen, hget⟩ := foldl_range_set (fun i _ => template.getD i [])
    ([] : GoString) (List.replicate template.length ([] : GoString)) template.length
  simp only [List.length_replicate] at hlen hget ⊢
  apply List.ext_getElem?
  intro j
  rw [hget j]
  by_cases hj : j < template.length
  · simp [hj, List.getD_eq_getElem?_getD, List.getElem?_eq_getElem hj]
  · simp [hj, List.getElem?_eq_none (Nat.le_of_not_lt hj), Nat.le_of_not_lt hj]

/-- The vector `runCustomCommand` builds once the URL is resolved. -/
theorem runCustomCommand_vector (windows : Bool)
    (getPlayableURL : GoString → GoString → Except GoError GoString)
    (runCmd : GoString → List GoString → Option GoError)
    (authtoken : GoString) (cc : commandContext) (u : GoString)
    (hurl : getPlayableURL cc.EpID authtoken = .ok u) :
    (runCustomCommand windows getPlayableURL runCmd authtoken cc).tmpCommand? =
        some (cc.CustomOptions.Command.map (substituteToken windows u cc.Titles)) ∧
      (runCustomCommand windows getPlayableURL runCmd authtoken cc).template? =
        some cc.CustomOptions.Command := by
  have hloop : ∀ l : List GoString,
      (List.range l.length).foldl (fun tmp i => substituteAt windows u cc.Titles tmp i) l =
        l.map (substituteToken windows u cc.Titles) := by
    intro l
    have h := foldl_range_set_eq_map (substituteToken windows u cc.Titles) [] l
    simpa only [substituteAt_eq_set] using h
  unfold runCustomCommand
  simp only [hurl, copy_template, hloop]
  cases hmap : cc.CustomOptions.Command.map (substituteToken windows u cc.Titles) with
  | nil => simp [Outcome.tmpCommand?, Outcome.template?]
  | cons name args => simp [Outcome.tmpCommand?, Outcome.template?]

/-- C1. For every command template, `Titles` value and episode whose playable URL resolves
to `u`, `runCustomCommand` builds an argument vector of the length of the template whose
token `i` is template token `i` after replace-all of `$url` by `u`, `$session`, `$event`,
`$perspective`, `$category`, `$episode` and `$season` by the matching title, and `$title`
by `Titles.String()`, in this order; the template itself is not modified. -/
theorem C1_runCustomCommand_substitution (windows : Bool)
    (getPlayableURL : GoString → GoString → Except GoError GoString)
    (runCmd : GoString → List GoString → Option GoError)
    (authtoken : GoString) (cc : commandContext) (u : GoString)
    (hurl : getPlayableURL cc.EpID authtoken = .ok u) :
    ∃ tmpCommand : List GoString,
      (runCustomCommand windows getPlayableURL runCmd authtoken cc).tmpCommand? =
        some tmpCommand ∧
      tmpCommand.length = cc.CustomOptions.Command.length ∧
      (∀ i, i < cc.CustomOptions.Command.length →
        tmpCommand.getD i [] =
          ReplaceAll (ReplaceAll (ReplaceAll (ReplaceAll (ReplaceAll (ReplaceAll (ReplaceAll
            (ReplaceAll (cc.CustomOptions.Command.getD i []) (utf8 "$url") u)
            (utf8 "$session") cc.Titles.SessionTitle)
            (utf8 "$event") cc.Titles.EventTitle)
            (utf8 "$perspective") cc.Titles.PerspectiveTitle)
            (utf8 "$category") cc.Titles.CategoryTitle)
            (utf8 "$episode") cc.Titles.EpisodeTitle)
            (utf8 "$season") cc.Titles.SeasonTitle)
            (utf8 "$title") (cc.Titles.String windows)) ∧
      (runCustomCommand windows getPlayableURL runCmd authtoken cc).template? =
        some cc.CustomOptions.Command := by
  obtain ⟨hvec, htemplate⟩ :=
    runCustomCommand_vector windows getPlayableURL runCmd authtoken cc u hurl
  refine ⟨_, hvec, by simp, fun i hi => ?_, htemplate⟩
  simp [List.getD_eq_getElem?_getD, List.getElem?_eq_getElem hi, substituteToken]

/-- C1 at the template `["echo", "$title - $url"]` with season 2021, event ITA, session
FP2 and the URL `http://x`: the vector is `["echo", "2021 - ITA - FP2 - http://x"]`. -/
theorem C1_witness :
    ∃ tmpCommand : List GoString,
      (runCustomCommand false (fun _ _ => .ok (utf8 "http://x")) (fun _ _ => none) []
        { EpID := [], CustomOptions := { Title := [], Command := [utf8 "echo", utf8 "$title - $url"] },
          Titles := { PerspectiveTitle := [], SessionTitle := utf8 "FP2", EventTitle := utf8 "ITA",
                      CategoryTitle := [], EpisodeTitle := [], SeasonTitle := utf8 "2021" } }).tmpCommand? =
        some tmpCommand ∧
      tmpCommand = [utf8 "echo", utf8 "2021 - ITA - FP2 - http://x"] := by
  obtain ⟨tmp, h1, _, _, _⟩ := C1_runCustomCommand_substitution false
    (fun _ _ => .ok (utf8 "http://x")) (fun _ _ => none) []
    { EpID := [], CustomOptions := { Title := [], Command := [utf8 "echo", utf8 "$title - $url"] },
      Titles := { PerspectiveTitle := [], SessionTitle := utf8 "FP2", EventTitle := utf8 "ITA",
                  CategoryTitle := [], EpisodeTitle := [], SeasonTitle := utf8 "2021" } }
    (utf8 "http://x") rfl
  refine ⟨tmp, h1, ?_⟩
  have h2 : (runCustomCommand false (fun _ _ => .ok (utf8 "http://x")) (fun _ _ => none) []
        { EpID := [], CustomOptions := { Title := [], Command := [utf8 "echo", utf8 "$title - $url"] },
          Titles := { PerspectiveTitle := [], SessionTitle := utf8 "FP2", EventTitle := utf8 "ITA",
                      CategoryTitle := [], EpisodeTitle := [], SeasonTitle := utf8 "2021" } }).tmpCommand? =
      some [utf8 "echo", utf8 "2021 - ITA - FP2 - http://x"] := by decide
  rw [h2] at h1
  exact (Option.some.inj h1).symm

/-! ## Trimming -/

/-- Dropping is what the counter of `trimGo` does. -/
theorem trimGo_skip (encs : List GoString) (k : Nat) (s : GoString) :
    trimGo encs k s = trimGo encs 0 (s.drop k) := by
  induction s generalizing k with
  | nil => simp [trimGo]
  | cons c cs ih =>
    cases k with
    | zero => simp
    | succ k => simp only [trimGo, List.drop_succ_cons]; exact ih k

/-- A string that starts with no encoding is left as it is. -/
theorem trimGo_of_width_zero (encs : List GoString) (s : GoString)
    (h : spaceWidth encs s = 0) : trimGo encs 0 s = s := by
  cases s with
  | nil => simp [trimGo]
  | cons c cs => simp only [trimGo, h]

/-- A string that starts with an encoding loses it. -/
theorem trimGo_of_width_pos (encs : List GoString) (s : GoString)
    (h : spaceWidth encs s ≠ 0) : trimGo encs 0 s = trimGo encs 0 (s.drop (spaceWidth encs s)) := by
  cases s with
  | nil => simp [trimGo]
  | cons c cs =>
    obtain ⟨w, hw⟩ := Nat.exists_eq_succ_of_ne_zero h
    simp only [trimGo, hw, Nat.succ_eq_add_one, List.drop_succ_cons]
    exact trimGo_skip encs w cs

/-- The width is that of an encoding the string starts with. -/
theorem spaceWidth_pos (encs : List GoString) (s : GoString) (h : spaceWidth encs s ≠ 0) :
    ∃ e ∈ encs, e ++ s.drop (spaceWidth encs s) = s ∧ e ≠ [] := by
  unfold spaceWidth at h ⊢
  cases hf : encs.find? (fun e => e.isPrefixOf s) with
  | none => simp [hf] at h
  | some e =>
    simp only [hf] at h ⊢
    have hp := List.find?_some hf
    simp only [List.isPrefixOf_iff_prefix] at hp
    refine ⟨e, List.mem_of_find?_eq_some hf, List.prefix_iff_eq_append.mp hp, ?_⟩
    intro he
    simp [he] at h

/-- With width zero the string starts with no encoding. -/
theorem spaceWidth_zero (encs : List GoString) (henc : ∀ e ∈ encs, e ≠ []) (s : GoString)
    (h : spaceWidth encs s = 0) : ∀ e ∈ encs, ¬ e <+: s := by
  unfold spaceWidth at h
  cases hf : encs.find? (fun e => e.isPrefixOf s) with
  | none =>
    intro e he hp
    have := List.find?_eq_none.mp hf e he
    simp at this
    exact this hp
  | some e =>
    simp only [hf] at h
    exact absurd (List.length_eq_zero.mp h) (henc e (List.mem_of_find?_eq_some hf))

/-- What `trimGo` removes is a concatenation of encodings, and what it leaves starts with
none of them. -/
theorem trimGo_spec (encs : List GoString) (henc : ∀ e ∈ encs, e ≠ []) (s : GoString) :
    (∃ es : List GoString, (∀ e ∈ es, e ∈ encs) ∧ es.flatten ++ trimGo encs 0 s = s) ∧
      ∀ e ∈ encs, ¬ e <+: trimGo encs 0 s := by
  suffices H : ∀ (n : Nat) (s : GoString), s.length = n →
      (∃ es : List GoString, (∀ e ∈ es, e ∈ encs) ∧ es.flatten ++ trimGo encs 0 s = s) ∧
        ∀ e ∈ encs, ¬ e <+: trimGo encs 0 s from H s.length s rfl
  intro n
  induction n using Nat.strong_induction_on with
  | _ n ih =>
    intro s h
    by_cases hw : spaceWidth encs s = 0
    · rw [trimGo_of_width_zero encs s hw]
      exact ⟨⟨[], by simp, by simp⟩, spaceWidth_zero encs henc s hw⟩
    · rw [trimGo_of_width_pos encs s hw]
      obtain ⟨e, he, hes, hne⟩ := spaceWidth_pos encs s hw
      have hlen : (s.drop (spaceWidth encs s)).length < n := by
        have h1 : (e ++ s.drop (spaceWidth encs s)).length = n := by rw [hes]; exact h
        have h2 : 0 < e.length := List.length_pos.mpr hne
        simp only [List.length_append] at h1
        omega
      obtain ⟨⟨es, hmem, hflat⟩, hno⟩ := ih _ hlen (s.drop (spaceWidth encs s)) rfl
      refine ⟨⟨e :: es, ?_, ?_⟩, hno⟩
      · intro x hx
        rcases List.mem_cons.mp hx with rfl | hx
        · exact he
        · exact hmem x hx
      · rw [List.flatten_cons, List.append_assoc, hflat, hes]

/-- The list `spaceEncodings` holds the UTF-8 encodings of the code points
`spaceRunes`. -/
theorem spaceEncodings_eq_utf8 :
    spaceEncodings = spaceRunes.map (fun r => utf8 (String.singleton (Char.ofNat r))) := by
  decide

/-- No white-space encoding is empty. -/
theorem spaceEncodings_ne_nil : ∀ e ∈ spaceEncodings, e ≠ [] := by decide

/-- `TrimLeftSpace` removes a run of white space and leaves no leading white space. -/
theorem TrimLeftSpace_spec (s : GoString) :
    (∃ pre, IsSpaceRun pre ∧ pre ++ TrimLeftSpace s = s) ∧
      ∀ e ∈ spaceEncodings, ¬ e <+: TrimLeftSpace s := by
  obtain ⟨⟨es, hmem, hflat⟩, hno⟩ := trimGo_spec spaceEncodings spaceEncodings_ne_nil s
  exact ⟨⟨es.flatten, ⟨es, hmem, rfl⟩, hflat⟩, hno⟩

/-- `TrimRightSpace` removes a run of white space and leaves no trailing white space. -/
theorem TrimRightSpace_spec (s : GoString) :
    (∃ post, IsSpaceRun post ∧ TrimRightSpace s ++ post = s) ∧
      ∀ e ∈ spaceEncodings, ¬ e <:+ TrimRightSpace s := by
  have henc : ∀ e ∈ spaceEncodings.map List.reverse, e ≠ [] := by decide
  obtain ⟨⟨es, hmem, hflat⟩, hno⟩ :=
    trimGo_spec (spaceEncodings.map List.reverse) henc s.reverse
  refine ⟨⟨(es.map List.reverse).reverse.flatten, ⟨(es.map List.reverse).reverse, ?_, rfl⟩, ?_⟩, ?_⟩
  · intro e he
    simp only [List.mem_reverse, List.mem_map] at he
    obtain ⟨x, hx, rfl⟩ := he
    have := hmem x hx
    simp only [List.mem_map] at this
    obtain ⟨y, hy, rfl⟩ := this
    simpa using hy
  · have h := congrArg List.reverse hflat
    rw [List.reverse_append, List.reverse_reverse, List.reverse_flatten] at h
    exact h
  · intro e he hsuf
    apply hno e.reverse (List.mem_map.mpr ⟨e, he, rfl⟩)
    unfold TrimRightSpace at hsuf
    have := List.reverse_prefix.mpr hsuf
    simpa using this

/-- `TrimSpace` removes a leading and a trailing run of white space and leaves neither
leading nor trailing white space. -/
theorem TrimSpace_spec (s : GoString) :
    (∃ pre post, IsSpaceRun pre ∧ IsSpaceRun post ∧ pre ++ TrimSpace s ++ post = s) ∧
      (∀ e ∈ spaceEncodings, ¬ e <+: TrimSpace s) ∧
      ∀ e ∈ spaceEncodings, ¬ e <:+ TrimSpace s := by
  obtain ⟨⟨pre, hpre, hl⟩, hnol⟩ := TrimLeftSpace_spec s
  obtain ⟨⟨post, hpost, hr⟩, hnor⟩ := TrimRightSpace_spec (TrimLeftSpace s)
  refine ⟨⟨pre, post, hpre, hpost, ?_⟩, ?_, hnor⟩
  · unfold TrimSpace
    rw [List.append_assoc, hr, hl]
  · intro e he hp
    exact hnol e he (hp.trans ⟨post, hr⟩)

/-! ## `sanitizeFileName` -/

/-- The byte of a space. -/
theorem utf8_space : utf8 " " = [0x20] := by decide

/-- Replacing the matches of a one-character class by one byte is a `map`. -/
theorem replaceAllClass_eq_map (cls : Nat → Bool) (x : Nat) (s : GoString) :
    replaceAllClass cls [x] s = s.map (fun c => if cls c then x else c) := by
  induction s with
  | nil => rfl
  | cons c cs ih => by_cases h : cls c <;> simp [replaceAllClass, h, ih]

/-- Inside a match, the rest of the run is passed over. -/
theorem replaceAllPlus_true (cls : Nat → Bool) (repl : GoString) (s : GoString) :
    replaceAllPlus cls repl true s = replaceAllPlus cls repl false (s.dropWhile cls) := by
  induction s with
  | nil => simp [replaceAllPlus]
  | cons c cs ih =>
    by_cases h : cls c
    · simp [replaceAllPlus, h, ih, List.dropWhile_cons]
    · simp [replaceAllPlus, h, List.dropWhile_cons]

/-- The scan for `cls+` replaces every maximal run by the replacement. -/
theorem replaceAllPlus_eq_collapseRuns (cls : Nat → Bool) (s : GoString) :
    replaceAllPlus cls [0x20] false s = collapseRuns cls s := by
  suffices H : ∀ (n : Nat) (s : GoString), s.length = n →
      replaceAllPlus cls [0x20] false s = collapseRuns cls s from H s.length s rfl
  intro n
  induction n using Nat.strong_induction_on with
  | _ n ih =>
    intro s hs
    cases s with
    | nil => simp [replaceAllPlus, collapseRuns]
    | cons c cs =>
      rw [collapseRuns]
      simp only [List.length_cons] at hs
      by_cases h : cls c
      · have hlen : (cs.dropWhile cls).length < n := by
          have : (cs.dropWhile cls).length ≤ cs.length := (List.dropWhile_suffix cls).length_le
          omega
        simp [replaceAllPlus, h, replaceAllPlus_true, ih _ hlen _ rfl]
      · simp [replaceAllPlus, h, ih cs.length (by omega) cs rfl]

/-- `sanitizeFileName` is the pipeline of the specification. -/
theorem sanitizeFileName_eq_spec (windows : Bool) (s : GoString) :
    sanitizeFileName windows s = sanitizeSpec windows s := by
  simp only [sanitizeFileName, sanitizeSpec, utf8_space, replaceAllClass_eq_map,
    replaceAllPlus_eq_collapseRuns]

/-- The scan for `\s+` leaves no two adjacent bytes of `\s`, and right after a match its
output does not start with one. -/
theorem replaceAllPlus_chain (inMatch : Bool) (s : GoString) :
    (replaceAllPlus isRegexSpace [0x20] inMatch s).Chain'
        (fun a b => ¬ (isRegexSpace a = true ∧ isRegexSpace b = true)) ∧
      (inMatch = true →
        ∀ x ∈ (replaceAllPlus isRegexSpace [0x20] inMatch s).head?, isRegexSpace x = false) := by
  induction s generalizing inMatch with
  | nil => simp [replaceAllPlus]
  | cons c cs ih =>
    by_cases h : isRegexSpace c = true
    · cases inMatch with
      | true => simpa [replaceAllPlus, h] using ih true
      | false =>
        obtain ⟨hc, hh⟩ := ih true
        simp only [replaceAllPlus, h, if_true, Bool.false_eq_true, if_false, List.singleton_append]
        refine ⟨List.chain'_cons'.mpr ⟨?_, hc⟩, by simp⟩
        intro y hy hcontra
        have := hh rfl y hy
        simp [this] at hcontra
    · obtain ⟨hc, _⟩ := ih false
      simp only [replaceAllPlus, h, if_false, Bool.false_eq_true]
      refine ⟨List.chain'_cons'.mpr ⟨?_, hc⟩, ?_⟩
      · intro y _ hcontra
        exact h hcontra.1
      · intro _ x hx
        simp only [List.head?_cons, Option.mem_def, Option.some.injEq] at hx
        subst hx
        simpa using h

/-- The two replacements touch only illegal bytes and bytes of `\s`. -/
theorem filter_other_replace (windows : Bool) (s : GoString) :
    (replaceAllPlus isRegexSpace [0x20] false
        (replaceAllClass (isIllegal windows) [0x20] s)).filter (isOther windows) =
      s.filter (isOther windows) := by
  have h20 : isOther windows 0x20 = false := by cases windows <;> decide
  have h1 : ∀ (b : Bool) (t : GoString),
      (replaceAllPlus isRegexSpace [0x20] b t).filter (isOther windows) =
        t.filter (isOther windows) := by
    intro b t
    induction t generalizing b with
    | nil => simp [replaceAllPlus]
    | cons c cs ih =>
      by_cases h : isRegexSpace c = true
      · have hO : isOther windows c = false := by simp [isOther, h]
        cases b <;> simp [replaceAllPlus, h, ih, List.filter_cons, hO, h20]
      · simp [replaceAllPlus, h, ih, List.filter_cons]
  rw [h1, replaceAllClass_eq_map]
  induction s with
  | nil => rfl
  | cons c cs ih =>
    by_cases h : isIllegal windows c = true
    · have hO : isOther windows c = false := by simp [isOther, h]
      simp [h, ih, List.filter_cons, hO, h20]
    · simp [h, ih, List.filter_cons]

/-- Every byte of `sanitizeFileName(s)` is a space or a legal byte of `s`. -/
theorem mem_sanitizeFileName (windows : Bool) (s : GoString) (b : Nat)
    (hb : b ∈ sanitizeFileName windows s) :
    b = 0x20 ∨ (b ∈ s ∧ isIllegal windows b = false) := by
  have h1 : ∀ t : GoString, b ∈ replaceAllClass (isIllegal windows) [0x20] t →
      b = 0x20 ∨ (b ∈ t ∧ isIllegal windows b = false) := by
    intro t ht
    rw [replaceAllClass_eq_map] at ht
    obtain ⟨c, hc, hcb⟩ := List.mem_map.mp ht
    by_cases h : isIllegal windows c = true
    · left; simp [h] at hcb; exact hcb.symm
    · right; simp [h] at hcb; subst hcb; exact ⟨hc, by simpa using h⟩
  have h2 : ∀ (f : Bool) (t : GoString), b ∈ replaceAllPlus isRegexSpace [0x20] f t →
      b = 0x20 ∨ b ∈ t := by
    intro f t
    induction t generalizing f with
    | nil => simp [replaceAllPlus]
    | cons c cs ih =>
      intro ht
      by_cases h : isRegexSpace c = true
      · cases f with
        | true =>
          simp only [replaceAllPlus, h, if_true] at ht
          rcases ih true ht with h' | h'
          · exact Or.inl h'
          · exact Or.inr (List.mem_cons_of_mem _ h')
        | false =>
          simp only [replaceAllPlus, h, if_true, Bool.false_eq_true, if_false,
            List.singleton_append, List.mem_cons] at ht
          rcases ht with h' | h'
          · exact Or.inl h'
          · rcases ih true h' with h'' | h''
            · exact Or.inl h''
            · exact Or.inr (List.mem_cons_of_mem _ h'')
      · simp only [replaceAllPlus, h, if_false, Bool.false_eq_true, List.mem_cons] at ht
        rcases ht with h' | h'
        · exact Or.inr (by simp [h'])
        · rcases ih false h' with h'' | h''
          · exact Or.inl h''
          · exact Or.inr (List.mem_cons_of_mem _ h'')
  obtain ⟨⟨pre, post, _, _, hcat⟩, _, _⟩ :=
    TrimSpace_spec (replaceAllPlus isRegexSpace [0x20] false
      (replaceAllClass (isIllegal windows) [0x20] s))
  have hmem : b ∈ replaceAllPlus isRegexSpace [0x20] false
      (replaceAllClass (isIllegal windows) [0x20] s) := by
    rw [← hcat]
    simp only [sanitizeFileName, utf8_space] at hb
    simp [hb]
  rcases h2 false _ hmem with h | h
  · exact Or.inl h
  · exact h1 s h

/-! ## Titles -/

/-- The conditional appends of `Titles.String` keep the non-empty fields. -/
theorem Titles_String_eq_filter (windows : Bool) (t : Titles) :
    t.String windows =
      sanitizeFileName windows
        (Join ([t.SeasonTitle, t.EventTitle, t.SessionTitle, t.PerspectiveTitle,
          t.EpisodeTitle].filter (fun f => !f.isEmpty)) (utf8 " - ")) := by
  unfold Titles.String
  by_cases h1 : t.SeasonTitle = [] <;> by_cases h2 : t.EventTitle = [] <;>
    by_cases h3 : t.SessionTitle = [] <;> by_cases h4 : t.PerspectiveTitle = [] <;>
    by_cases h5 : t.EpisodeTitle = [] <;>
    simp [h1, h2, h3, h4, h5, List.filter_cons]

/-- C3. For every `Titles` value `t`, `t.String()` is `sanitizeFileName` applied to the
non-empty fields among `SeasonTitle`, `EventTitle`, `SessionTitle`, `PerspectiveTitle`,
`EpisodeTitle`, in that order, joined with `" - "`; `CategoryTitle` never contributes, and
a value whose five listed fields are all empty yields the empty string. -/
theorem C3_Titles_String (windows : Bool) (t : Titles) :
    t.String windows =
        sanitizeFileName windows
          (Join ([t.SeasonTitle, t.EventTitle, t.SessionTitle, t.PerspectiveTitle,
            t.EpisodeTitle].filter (fun f => !f.isEmpty)) (utf8 " - ")) ∧
      (∀ c : GoString, ({ t with CategoryTitle := c } : Titles).String windows = t.String windows) ∧
      (∀ c : GoString,
        Titles.String windows
          { PerspectiveTitle := [], SessionTitle := [], EventTitle := [], CategoryTitle := c,
            EpisodeTitle := [], SeasonTitle := [] } = []) := by
  refine ⟨Titles_String_eq_filter windows t, fun c => rfl, fun c => ?_⟩
  have h : sanitizeFileName windows [] = [] := by cases windows <;> decide
  simp [Titles.String, Join, h]

/-! ## The contract of `sanitizeFileName` -/

/-- C4. For every input `s`, `sanitizeFileName(s)` is the string obtained by replacing
every illegal character by a space, then every maximal run of `\s` by one space, then
trimming leading and trailing white space; the result contains no illegal character,
neither starts nor ends with a white-space character, contains no two adjacent `\s`
characters, and, with the trimmed white space put back, has the bytes of `s` that are
neither illegal nor in `\s`, in their order.  The title of the test gives the test's
target on either platform. -/
theorem C4_sanitizeFileName (windows : Bool) (s : GoString) :
    sanitizeFileName windows s = sanitizeSpec windows s ∧
      (∀ b ∈ sanitizeFileName windows s, isIllegal windows b = false) ∧
      (∀ e ∈ spaceEncodings,
        ¬ e <+: sanitizeFileName windows s ∧ ¬ e <:+ sanitizeFileName windows s) ∧
      (∀ (l : GoString) (a b : Nat) (r : GoString),
        sanitizeFileName windows s = l ++ a :: b :: r →
          ¬ (isRegexSpace a = true ∧ isRegexSpace b = true)) ∧
      (∃ pre post, IsSpaceRun pre ∧ IsSpaceRun post ∧
        (pre ++ sanitizeFileName windows s ++ post).filter (isOther windows) =
          s.filter (isOther windows)) ∧
      sanitizeFileName false (utf8 "file name: \"with\" <illegal> \\/characters|") =
        utf8 "file name: \"with\" <illegal> \\ characters|" ∧
      sanitizeFileName true (utf8 "file name: \"with\" <illegal> \\/characters|") =
        utf8 "file name with illegal characters" := by
  obtain ⟨⟨pre, post, hpre, hpost, hcat⟩, hlead, htrail⟩ :=
    TrimSpace_spec (replaceAllPlus isRegexSpace [0x20] false
      (replaceAllClass (isIllegal windows) [0x20] s))
  have hdef : sanitizeFileName windows s =
      TrimSpace (replaceAllPlus isRegexSpace [0x20] false
        (replaceAllClass (isIllegal windows) [0x20] s)) := by
    simp only [sanitizeFileName, utf8_space]
  refine ⟨sanitizeFileName_eq_spec windows s, ?_, ?_, ?_, ?_, by decide, by decide⟩
  · intro b hb
    rcases mem_sanitizeFileName windows s b hb with h | h
    · subst h; cases windows <;> decide
    · exact h.2
  · intro e he
    rw [hdef]
    exact ⟨hlead e he, htrail e he⟩
  · intro l a b r hsplit
    have hchain := (replaceAllPlus_chain false
      (replaceAllClass (isIllegal windows) [0x20] s)).1
    rw [← hcat, ← hdef, hsplit] at hchain
    have h1 : List.Chain' (fun a b => ¬ (isRegexSpace a = true ∧ isRegexSpace b = true))
        (a :: b :: r) :=
      hchain.infix ⟨pre ++ l, post, by simp⟩
    exact (List.chain'_cons.mp h1).1
  · refine ⟨pre, post, hpre, hpost, ?_⟩
    rw [hdef, hcat]
    exact filter_other_replace windows s

/-! ## Totality of the substitution -/

/-- Passing over is what the counter of `replaceGo` does. -/
theorem replaceGo_skip (old new : GoString) (k : Nat) (s : GoString) :
    replaceGo old new k s = replaceGo old new 0 (s.drop k) := by
  induction s generalizing k with
  | nil => simp [replaceGo]
  | cons c cs ih =>
    cases k with
    | zero => simp
    | succ k => simp only [replaceGo, List.drop_succ_cons]; exact ih k

/-- An occurrence at the front is replaced and the scan goes on behind it. -/
theorem replaceGo_match (old new rest : GoString) (hold : old ≠ []) :
    replaceGo old new 0 (old ++ rest) = new ++ replaceGo old new 0 rest := by
  cases old with
  | nil => exact absurd rfl hold
  | cons c pt =>
    have hp : (c :: pt).isPrefixOf (c :: (pt ++ rest)) = true := by
      rw [List.isPrefixOf_iff_prefix]
      exact ⟨rest, rfl⟩
    simp only [List.cons_append, replaceGo, List.append_eq, hp, if_true, List.length_cons,
      Nat.add_sub_cancel]
    rw [replaceGo_skip]
    simp

/-- Bytes other than the first byte of the pattern are copied. -/
theorem replaceGo_copy (old new x rest : GoString) (o : Nat) (hold : old.head? = some o)
    (hx : o ∉ x) :
    replaceGo old new 0 (x ++ rest) = x ++ replaceGo old new 0 rest := by
  induction x with
  | nil => rfl
  | cons c cs ih =>
    have hc : c ≠ o := fun h => hx (by simp [h])
    have hcs : o ∉ cs := fun h => hx (List.mem_cons_of_mem _ h)
    cases old with
    | nil => simp at hold
    | cons o' ot =>
      simp only [List.head?_cons, Option.some.injEq] at hold
      subst hold
      have hp : (o' :: ot).isPrefixOf (c :: (cs ++ rest)) = false := by
        simp [List.isPrefixOf, Ne.symm hc]
      simp only [List.cons_append, replaceGo, List.append_eq, hp, Bool.false_eq_true, if_false,
        ih hcs]

/-- The property passes to what follows a prefix. -/
theorem dollarsBegin_of_append (L : List GoString) (x y : GoString)
    (h : dollarsBegin L (x ++ y) = true) : dollarsBegin L y = true := by
  induction x with
  | nil => exact h
  | cons c cs ih =>
    simp only [List.cons_append, dollarsBegin, Bool.and_eq_true] at h
    exact ih h.2

/-- A prefix without `$` does no harm. -/
theorem dollarsBegin_append (L : List GoString) (x y : GoString) (hx : 0x24 ∉ x)
    (h : dollarsBegin L y = true) : dollarsBegin L (x ++ y) = true := by
  induction x with
  | nil => exact h
  | cons c cs ih =>
    have hc : c ≠ 0x24 := fun h => hx (by simp [h])
    have hcs : 0x24 ∉ cs := fun h => hx (List.mem_cons_of_mem _ h)
    simp [dollarsBegin, hc, ih hcs]

/-- With no placeholder left there is no `$` left. -/
theorem not_mem_of_dollarsBegin_nil (tok : GoString) (h : dollarsBegin [] tok = true) :
    0x24 ∉ tok := by
  induction tok with
  | nil => simp
  | cons c cs ih =>
    simp only [dollarsBegin, List.any_nil, Bool.or_false, Bool.and_eq_true, bne_iff_ne] at h
    simp only [List.mem_cons, not_or]
    exact ⟨fun hc => h.1 hc.symm, ih h.2⟩

/-- One replacement step: when every `$` begins the placeholder being replaced or a later
one, and the value has no `$`, every `$` of the result begins a later placeholder. -/
theorem dollarsBegin_ReplaceAll (p v : GoString) (L : List GoString)
    (hp : p.head? = some 0x24)
    (hL : ∀ q ∈ L, q.head? = some 0x24 ∧ 0x24 ∉ q.tail) (hv : 0x24 ∉ v)
    (tok : GoString) (h : dollarsBegin (p :: L) tok = true) :
    dollarsBegin L (ReplaceAll tok p v) = true := by
  have hne : p ≠ [] := by
    intro hnil
    simp [hnil] at hp
  simp only [ReplaceAll, hne, if_false]
  suffices H : ∀ (n : Nat) (tok : GoString), tok.length = n →
      dollarsBegin (p :: L) tok = true → dollarsBegin L (replaceGo p v 0 tok) = true from
    H tok.length tok rfl h
  intro n
  induction n using Nat.strong_induction_on with
  | _ n ih =>
    intro tok hlen h
    cases tok with
    | nil => simp [replaceGo, dollarsBegin]
    | cons c cs =>
      simp only [List.length_cons] at hlen
      by_cases hpre : p.isPrefixOf (c :: cs) = true
      · obtain ⟨rest, hrest⟩ := List.isPrefixOf_iff_prefix.mp hpre
        rw [← hrest, replaceGo_match p v rest hne]
        have hrl : rest.length < n := by
          have h1 := congrArg List.length hrest
          have h2 : 0 < p.length := List.length_pos.mpr hne
          simp only [List.length_append, List.length_cons] at h1
          omega
        apply dollarsBegin_append L v _ hv
        apply ih rest.length hrl rest rfl
        rw [← hrest] at h
        exact dollarsBegin_of_append (p :: L) p rest h
      · have hcs : dollarsBegin (p :: L) cs = true := by
          simp only [dollarsBegin, Bool.and_eq_true] at h
          exact h.2
        have hX := ih cs.length (by omega) cs rfl hcs
        simp only [replaceGo, hpre, if_false]
        by_cases hc : c = 0x24
        · simp only [dollarsBegin, List.any_cons, Bool.and_eq_true, Bool.or_eq_true,
            bne_iff_ne] at h
          rcases h.1 with h1 | h1 | h1
          · exact absurd hc h1
          · exact absurd h1 hpre
          · obtain ⟨q, hq, hqpre⟩ := List.any_eq_true.mp h1
            obtain ⟨rest, hrest⟩ := List.isPrefixOf_iff_prefix.mp hqpre
            obtain ⟨hqh, hqt⟩ := hL q hq
            cases q with
            | nil => simp at hqh
            | cons q0 qt =>
              simp only [List.cons_append, List.cons.injEq] at hrest
              simp only [List.tail_cons] at hqt
              obtain ⟨hq0, hcs'⟩ := hrest
              have hcopy := replaceGo_copy p v qt rest 0x24 hp hqt
              rw [hcs'] at hcopy
              simp only [dollarsBegin, hX, Bool.and_true, Bool.or_eq_true]
              right
              apply List.any_eq_true.mpr
              refine ⟨q0 :: qt, hq, ?_⟩
              rw [List.isPrefixOf_iff_prefix, hcopy, hq0]
              exact ⟨replaceGo p v 0 rest, rfl⟩
        · simp [dollarsBegin, hc, hX]

/-- A byte of a joined string comes from the separator or from an element. -/
theorem mem_Join (l : List GoString) (sep : GoString) (b : Nat) (h : b ∈ Join l sep) :
    b ∈ sep ∨ ∃ f ∈ l, b ∈ f := by
  cases l with
  | nil => simp [Join] at h
  | cons a rest =>
    simp only [Join, List.mem_append, List.mem_flatMap] at h
    rcases h with h | ⟨f, hf, h | h⟩
    · exact Or.inr ⟨a, by simp, h⟩
    · exact Or.inl h
    · exact Or.inr ⟨f, List.mem_cons_of_mem _ hf, h⟩

/-- The composite title has no `$` when the titles have none. -/
theorem not_mem_Titles_String (windows : Bool) (t : Titles)
    (ht : ∀ f ∈ [t.SeasonTitle, t.EventTitle, t.SessionTitle, t.PerspectiveTitle,
      t.EpisodeTitle], 0x24 ∉ f) :
    0x24 ∉ t.String windows := by
  intro hmem
  rw [Titles_String_eq_filter] at hmem
  rcases mem_sanitizeFileName windows _ _ hmem with h | ⟨h, _⟩
  · exact absurd h (by decide)
  · rcases mem_Join _ _ _ h with h | ⟨f, hf, h⟩
    · exact absurd h (by decide)
    · exact ht f (List.mem_of_mem_filter hf) h

/-- Every placeholder contains a `$`. -/
theorem dollar_mem_placeholder : ∀ p ∈ placeholders, 0x24 ∈ p := by decide

/-- The eight replacements leave no `$` in a token whose every `$` begins a placeholder,
when the values have none. -/
theorem substituteToken_no_dollar (windows : Bool) (u : GoString) (t : Titles)
    (tok : GoString) (hu : 0x24 ∉ u)
    (ht : ∀ f ∈ [t.SeasonTitle, t.EventTitle, t.SessionTitle, t.PerspectiveTitle,
      t.EpisodeTitle, t.CategoryTitle], 0x24 ∉ f)
    (htok : dollarsBegin placeholders tok = true) :
    0x24 ∉ substituteToken windows u t tok := by
  have htitle : 0x24 ∉ t.String windows :=
    not_mem_Titles_String windows t (fun f hf => ht f (by
      simp only [List.mem_cons, List.mem_singleton, List.not_mem_nil, or_false] at hf ⊢
      tauto))
  have h1 := dollarsBegin_ReplaceAll (utf8 "$url") u _ (by decide) (by decide) hu tok htok
  have h2 := dollarsBegin_ReplaceAll (utf8 "$session") t.SessionTitle _ (by decide) (by decide)
    (ht _ (by simp)) _ h1
  have h3 := dollarsBegin_ReplaceAll (utf8 "$event") t.EventTitle _ (by decide) (by decide)
    (ht _ (by simp)) _ h2
  have h4 := dollarsBegin_ReplaceAll (utf8 "$perspective") t.PerspectiveTitle _ (by decide)
    (by decide) (ht _ (by simp)) _ h3
  have h5 := dollarsBegin_ReplaceAll (utf8 "$category") t.CategoryTitle _ (by decide)
    (by decide) (ht _ (by simp)) _ h4
  have h6 := dollarsBegin_ReplaceAll (utf8 "$episode") t.EpisodeTitle _ (by decide)
    (by decide) (ht _ (by simp)) _ h5
  have h7 := dollarsBegin_ReplaceAll (utf8 "$season") t.SeasonTitle _ (by decide)
    (by decide) (ht _ (by simp)) _ h6
  have h8 := dollarsBegin_ReplaceAll (utf8 "$title") (t.String windows) [] (by decide)
    (by decide) htitle _ h7
  exact not_mem_of_dollarsBegin_nil _ h8

/-- C2 as stated fails: with the template `["$session"]` and the session title `$url`, the
substituted vector is `["$url"]`, which contains a recognised placeholder. -/
theorem C2_counterexample :
    ¬ (∀ tok ∈ ((runCustomCommand false (fun _ _ => .ok (utf8 "http://x")) (fun _ _ => none) []
          (exampleContext [utf8 "$session"]
            { PerspectiveTitle := [], SessionTitle := utf8 "$url", EventTitle := [],
              CategoryTitle := [], EpisodeTitle := [], SeasonTitle := [] })).tmpCommand?.getD []),
        ∀ p ∈ placeholders, ¬ p <:+: tok) := by
  intro h
  have hvec : (runCustomCommand false (fun _ _ => .ok (utf8 "http://x")) (fun _ _ => none) []
      (exampleContext [utf8 "$session"]
        { PerspectiveTitle := [], SessionTitle := utf8 "$url", EventTitle := [],
          CategoryTitle := [], EpisodeTitle := [], SeasonTitle := [] })).tmpCommand?.getD [] =
      [utf8 "$url"] := by decide
  rw [hvec] at h
  exact h (utf8 "$url") (by simp) (utf8 "$url") (by decide) (List.infix_refl _)

/-- Juxtaposition alone can form a placeholder: with the template `["$ur$event"]`, the
event title `l` and values without `$`, the substituted vector is `["$url"]`. -/
theorem placeholder_formed_by_juxtaposition :
    (runCustomCommand false (fun _ _ => .ok (utf8 "http://x")) (fun _ _ => none) []
      (exampleContext [utf8 "$ur$event"]
        { PerspectiveTitle := [], SessionTitle := [], EventTitle := utf8 "l",
          CategoryTitle := [], EpisodeTitle := [], SeasonTitle := [] })).tmpCommand? =
      some [utf8 "$url"] := by decide

/-- C2, amended. When the resolved URL and the six titles contain no `$` and every `$`
of every template token begins one of the eight recognised placeholders, no token of the
substituted argument vector contains a `$`, so none contains a recognised placeholder. -/
theorem C2_substitution_total (windows : Bool)
    (getPlayableURL : GoString → GoString → Except GoError GoString)
    (runCmd : GoString → List GoString → Option GoError)
    (authtoken : GoString) (cc : commandContext) (u : GoString)
    (hurl : getPlayableURL cc.EpID authtoken = .ok u)
    (hu : 0x24 ∉ u)
    (ht : ∀ f ∈ [cc.Titles.SeasonTitle, cc.Titles.EventTitle, cc.Titles.SessionTitle,
      cc.Titles.PerspectiveTitle, cc.Titles.EpisodeTitle, cc.Titles.CategoryTitle], 0x24 ∉ f)
    (htemplate : ∀ tok ∈ cc.CustomOptions.Command, dollarsBegin placeholders tok = true) :
    ∃ tmpCommand : List GoString,
      (runCustomCommand windows getPlayableURL runCmd authtoken cc).tmpCommand? =
        some tmpCommand ∧
      tmpCommand.length = cc.CustomOptions.Command.length ∧
      ∀ tok ∈ tmpCommand, 0x24 ∉ tok ∧ ∀ p ∈ placeholders, ¬ p <:+: tok := by
  obtain ⟨hvec, _⟩ := runCustomCommand_vector windows getPlayableURL runCmd authtoken cc u hurl
  refine ⟨_, hvec, by simp, fun tok htok => ?_⟩
  obtain ⟨tok0, htok0, rfl⟩ := List.mem_map.mp htok
  have hno := substituteToken_no_dollar windows u cc.Titles tok0 hu ht (htemplate tok0 htok0)
  exact ⟨hno, fun p hp hinf => hno (hinf.subset (dollar_mem_placeholder p hp))⟩

/-- C2, amended, at the template `["echo", "$title - $url"]` with season 2021, event ITA,
session FP2 and the URL `http://x`. -/
theorem C2_witness :
    ∃ tmpCommand : List GoString,
      (runCustomCommand false (fun _ _ => .ok (utf8 "http://x")) (fun _ _ => none) []
        (exampleContext [utf8 "echo", utf8 "$title - $url"]
          { PerspectiveTitle := [], SessionTitle := utf8 "FP2", EventTitle := utf8 "ITA",
            CategoryTitle := [], EpisodeTitle := [], SeasonTitle := utf8 "2021" })).tmpCommand? =
        some tmpCommand ∧
      tmpCommand.length = 2 ∧
      ∀ tok ∈ tmpCommand, 0x24 ∉ tok ∧ ∀ p ∈ placeholders, ¬ p <:+: tok :=
  C2_substitution_total false (fun _ _ => .ok (utf8 "http://x")) (fun _ _ => none) []
    (exampleContext [utf8 "echo", utf8 "$title - $url"]
      { PerspectiveTitle := [], SessionTitle := utf8 "FP2", EventTitle := utf8 "ITA",
        CategoryTitle := [], EpisodeTitle := [], SeasonTitle := utf8 "2021" })
    (utf8 "http://x") rfl (by decide) (by decide) (by decide)

/-! ## `getYearAndRace` -/

/-- The fast path of `Atoi` consumes a decimal digit. -/
theorem atoiLoop_digit (n : Int) (d : Nat) (rest : GoString) (hd : isDigit d = true) :
    atoiLoop n (d :: rest) = atoiLoop (n * 10 + ((d - 0x30 : Nat) : Int)) rest := by
  simp only [isDigit, Bool.and_eq_true, decide_eq_true_eq] at hd
  have h1 : (d + 256 - 0x30) % 256 = d - 0x30 := by omega
  have h2 : ¬ (d - 0x30 > 9) := by omega
  simp only [atoiLoop, h1, h2, if_false]

/-- The fast path of `Atoi` stops at a byte that is no decimal digit. -/
theorem atoiLoop_nondigit (n : Int) (d : Nat) (rest : GoString) (hd : isDigit d = false)
    (hb : d < 256) : atoiLoop n (d :: rest) = (0, some .errSyntax) := by
  simp only [isDigit, Bool.and_eq_false_iff, decide_eq_false_iff_not] at hd
  have h2 : (d + 256 - 0x30) % 256 > 9 := by omega
  simp only [atoiLoop, h2, if_true]

/-- `Atoi` on two decimal digits. -/
theorem Atoi_two_digits (d1 d2 : Nat) (h1 : isDigit d1 = true) (h2 : isDigit d2 = true) :
    Atoi [d1, d2] = (((10 * (d1 - 0x30) + (d2 - 0x30) : Nat) : Int), none) := by
  have hs : ¬ (d1 = 0x2D ∨ d1 = 0x2B) := by
    simp only [isDigit, Bool.and_eq_true, decide_eq_true_eq] at h1
    omega
  have hm : d1 ≠ 0x2D := fun h => hs (Or.inl h)
  have hl : atoiLoop 0 [d1, d2] =
      ((0 * 10 + ((d1 - 0x30 : Nat) : Int)) * 10 + ((d2 - 0x30 : Nat) : Int), none) := by
    rw [atoiLoop_digit _ _ _ h1, atoiLoop_digit _ _ _ h2, atoiLoop]
  have hlen : 0 < [d1, d2].length ∧ [d1, d2].length < 19 := by simp
  have hlen2 : ¬ [d1, d2].length < 1 := by simp
  simp only [Atoi, hlen, and_self, if_true, hs, if_false, hlen2, hl]
  simp only [hm, if_false]
  congr 1
  push_cast
  ring

/-- `Atoi` accepts four decimal digits. -/
theorem Atoi_four_digits (d1 d2 d3 d4 : Nat) (h1 : isDigit d1 = true) (h2 : isDigit d2 = true)
    (h3 : isDigit d3 = true) (h4 : isDigit d4 = true) :
    (Atoi [d1, d2, d3, d4]).2 = none := by
  have hs : ¬ (d1 = 0x2D ∨ d1 = 0x2B) := by
    simp only [isDigit, Bool.and_eq_true, decide_eq_true_eq] at h1
    omega
  have hl : atoiLoop 0 [d1, d2, d3, d4] =
      ((((0 * 10 + ((d1 - 0x30 : Nat) : Int)) * 10 + ((d2 - 0x30 : Nat) : Int)) * 10 +
        ((d3 - 0x30 : Nat) : Int)) * 10 + ((d4 - 0x30 : Nat) : Int), none) := by
    rw [atoiLoop_digit _ _ _ h1, atoiLoop_digit _ _ _ h2, atoiLoop_digit _ _ _ h3,
      atoiLoop_digit _ _ _ h4, atoiLoop]
  have hlen : 0 < [d1, d2, d3, d4].length ∧ [d1, d2, d3, d4].length < 19 := by simp
  have hlen2 : ¬ [d1, d2, d3, d4].length < 1 := by simp
  simp only [Atoi, hlen, and_self, if_true, hs, if_false, hlen2, hl]

/-- C6. For every input whose first four bytes are decimal digits `d1 d2 d3 d4`,
`getYearAndRace` returns without error: the four digits and `"0"` when they are `2018` or
`2019`; otherwise `"20"` followed by `d1 d2` when the number `d1 d2` is below 30, `"19"`
followed by `d1 d2` when it is 30 or more, and `d3 d4` as the race.  What follows the
fourth byte has no influence. -/
theorem C6_getYearAndRace_digits (d1 d2 d3 d4 : Nat) (rest : GoString)
    (h1 : isDigit d1 = true) (h2 : isDigit d2 = true) (h3 : isDigit d3 = true)
    (h4 : isDigit d4 = true) :
    getYearAndRace (d1 :: d2 :: d3 :: d4 :: rest) =
      if [d1, d2, d3, d4] = utf8 "2018" ∨ [d1, d2, d3, d4] = utf8 "2019" then
        ([d1, d2, d3, d4], utf8 "0", none)
      else if 10 * (d1 - 0x30) + (d2 - 0x30) < 30 then
        (utf8 "20" ++ [d1, d2], [d3, d4], none)
      else
        (utf8 "19" ++ [d1, d2], [d3, d4], none) := by
  have hlen : ¬ (d1 :: d2 :: d3 :: d4 :: rest).length < 4 := by simp
  have htake4 : (d1 :: d2 :: d3 :: d4 :: rest).take 4 = [d1, d2, d3, d4] := by simp
  have htake2 : (d1 :: d2 :: d3 :: d4 :: rest).take 2 = [d1, d2] := by simp
  have hrace : ((d1 :: d2 :: d3 :: d4 :: rest).drop 2).take 2 = [d3, d4] := by simp
  simp only [getYearAndRace, hlen, if_false, htake4, htake2, hrace,
    Atoi_four_digits d1 d2 d3 d4 h1 h2 h3 h4, Atoi_two_digits d1 d2 h1 h2]
  by_cases hy : [d1, d2, d3, d4] = utf8 "2018" ∨ [d1, d2, d3, d4] = utf8 "2019"
  · simp only [hy, if_true]
  · simp only [hy, if_false]
    by_cases hlt : 10 * (d1 - 0x30) + (d2 - 0x30) < 30
    · have : ((10 * (d1 - 0x30) + (d2 - 0x30) : Nat) : Int) < 30 := by exact_mod_cast hlt
      simp only [hlt, this, if_true]
    · have : ¬ ((10 * (d1 - 0x30) + (d2 - 0x30) : Nat) : Int) < 30 := by exact_mod_cast hlt
      simp only [hlt, this, if_false]

/-- C6 at the inputs of the test: `1914_ITA_FP2_F1TV` gives 2019 and 14, `9414_ABC` gives
1994 and 14, `2018_TEST` gives 2018 and 0. -/
theorem C6_witness :
    getYearAndRace (utf8 "1914_ITA_FP2_F1TV") = (utf8 "2019", utf8 "14", none) ∧
      getYearAndRace (utf8 "9414_ABC") = (utf8 "1994", utf8 "14", none) ∧
      getYearAndRace (utf8 "2018_TEST") = (utf8 "2018", utf8 "0", none) :=
  ⟨C6_getYearAndRace_digits 0x31 0x39 0x31 0x34 (utf8 "_ITA_FP2_F1TV")
      (by decide) (by decide) (by decide) (by decide),
    C6_getYearAndRace_digits 0x39 0x34 0x31 0x34 (utf8 "_ABC")
      (by decide) (by decide) (by decide) (by decide),
    C6_getYearAndRace_digits 0x32 0x30 0x31 0x38 (utf8 "_TEST")
      (by decide) (by decide) (by decide) (by decide)⟩

/-- The fast path of `Atoi` reads a string without error exactly when all its bytes are
decimal digits. -/
theorem atoiLoop_none_iff (l : GoString) (hb : ∀ b ∈ l, b < 256) (n : Int) :
    (atoiLoop n l).2 = none ↔ l.all isDigit = true := by
  induction l generalizing n with
  | nil => simp [atoiLoop]
  | cons d rest ih =>
    have hrest : ∀ b ∈ rest, b < 256 := fun b hmem => hb b (List.mem_cons_of_mem _ hmem)
    cases hd : isDigit d with
    | true => rw [atoiLoop_digit n d rest hd, ih hrest]; simp [hd]
    | false => rw [atoiLoop_nondigit n d rest hd (hb d (by simp))]; simp [hd]

/-- What `getYearAndRace` accepts: inputs of at least four bytes whose first four bytes
are four decimal digits, or a sign followed by three decimal digits. -/
theorem getYearAndRace_succeeds_iff (input : GoString) (hb : ∀ b ∈ input, b < 256) :
    (getYearAndRace input).2.2 = none ↔
      4 ≤ input.length ∧
        ((input.take 4).all isDigit = true ∨
          ((input.head? = some 0x2B ∨ input.head? = some 0x2D) ∧
            ((input.take 4).drop 1).all isDigit = true)) := by
  by_cases hlen : input.length < 4
  · simp only [getYearAndRace, hlen, if_true]
    constructor
    · intro h; cases h
    · intro h; omega
  · obtain ⟨a, b, c, d, rest, rfl⟩ : ∃ a b c d rest, input = a :: b :: c :: d :: rest := by
      match input, hlen with
      | a :: b :: c :: d :: rest, _ => exact ⟨a, b, c, d, rest, rfl⟩
      | [], h | [_], h | [_, _], h | [_, _, _], h => simp at h
    have hsucc : (getYearAndRace (a :: b :: c :: d :: rest)).2.2 = none ↔
        (Atoi [a, b, c, d]).2 = none := by
      have htake4 : (a :: b :: c :: d :: rest).take 4 = [a, b, c, d] := by simp
      simp only [getYearAndRace, hlen, if_false, htake4]
      cases hA : (Atoi [a, b, c, d]).2 with
      | some e => simp
      | none =>
        refine ⟨fun _ => rfl, fun _ => ?_⟩
        by_cases hy : [a, b, c, d] = utf8 "2018" ∨ [a, b, c, d] = utf8 "2019"
        · simp only [hy, if_true]
        · simp only [hy, if_false]
    have hbytes : ∀ x ∈ [a, b, c, d], x < 256 := by
      intro x hx
      apply hb x
      simp only [List.mem_cons, List.mem_singleton, List.not_mem_nil, or_false] at hx ⊢
      tauto
    have hl4 : 0 < [a, b, c, d].length ∧ [a, b, c, d].length < 19 := by simp
    rw [hsucc]
    by_cases hs : a = 0x2D ∨ a = 0x2B
    · have hnd : isDigit a = false := by
        simp only [isDigit, Bool.and_eq_false_iff, decide_eq_false_iff_not]
        omega
      have hloop := atoiLoop_none_iff [b, c, d]
        (fun x hx => hbytes x (List.mem_cons_of_mem _ hx)) 0
      have hAtoi : (Atoi [a, b, c, d]).2 = none ↔ (atoiLoop 0 [b, c, d]).2 = none := by
        simp only [Atoi, hl4, and_self, if_true, hs]
        have : ¬ [b, c, d].length < 1 := by simp
        simp only [this, if_false]
        cases hL : atoiLoop 0 [b, c, d] with
        | mk v e => cases e <;> simp
      rw [hAtoi, hloop]
      have hhead : a = 0x2B ∨ a = 0x2D := hs.symm
      simp [hnd, hhead]
    · have hloop := atoiLoop_none_iff [a, b, c, d] hbytes 0
      have hAtoi : (Atoi [a, b, c, d]).2 = none ↔ (atoiLoop 0 [a, b, c, d]).2 = none := by
        simp only [Atoi, hl4, and_self, if_true, hs, if_false]
        have : ¬ [a, b, c, d].length < 1 := by simp
        simp only [this, if_false]
        cases hL : atoiLoop 0 [a, b, c, d] with
        | mk v e => cases e <;> simp
      rw [hAtoi, hloop]
      have hhead : ¬ (a = 0x2B ∨ a = 0x2D) := fun h => hs h.symm
      simp [hhead]

/-- C5, the failing input: on `+123` the code returns the year `20+1` and the race `23`
without an error, although the first four bytes are not all decimal digits; `123` fails
with `not long enough`, `abcde` with `not a valid YearRaceID`, and `9414_ABC` succeeds. -/
theorem C5_getYearAndRace_accepts_sign :
    getYearAndRace (utf8 "+123") = (utf8 "20+1", utf8 "23", none) ∧
      (utf8 "+123").length = 4 ∧
      ((utf8 "+123").take 4).all isDigit = false ∧
      getYearAndRace (utf8 "-123") = (utf8 "20-1", utf8 "23", none) ∧
      getYearAndRace (utf8 "123") = ([], [], some (.new (utf8 "not long enough"))) ∧
      getYearAndRace (utf8 "abcde") = ([], [], some (.new (utf8 "not a valid YearRaceID"))) ∧
      (getYearAndRace (utf8 "9414_ABC")).2.2 = none := by
  decide

/-! ## Hexadecimal colours -/

/-- The sixteen lower-case hexadecimal digits. -/
theorem lowerHex_mem (c : Nat) (h : isLowerHex c = true) :
    c ∈ [0x30, 0x31, 0x32, 0x33, 0x34, 0x35, 0x36, 0x37, 0x38, 0x39,
      0x61, 0x62, 0x63, 0x64, 0x65, 0x66] := by
  simp only [isLowerHex, Bool.or_eq_true, Bool.and_eq_true, decide_eq_true_eq] at h
  simp only [List.mem_cons, List.mem_singleton, List.not_mem_nil, or_false]
  omega

/-- What the parser and the formatter do with a lower-case hexadecimal digit. -/
theorem lowerHex_facts (c : Nat) (h : isLowerHex c = true) :
    digitVal c = some (lowerHexValue c) ∧ lowerHexValue c < 16 ∧
      hexDigit (lowerHexValue c) = c ∧ c ≠ 0x23 ∧ c ≠ 0x2B ∧ c ≠ 0x2D := by
  have hall : ∀ c ∈ [0x30, 0x31, 0x32, 0x33, 0x34, 0x35, 0x36, 0x37, 0x38, 0x39,
      0x61, 0x62, 0x63, 0x64, 0x65, 0x66],
      digitVal c = some (lowerHexValue c) ∧ lowerHexValue c < 16 ∧
        hexDigit (lowerHexValue c) = c ∧ c ≠ 0x23 ∧ c ≠ 0x2B ∧ c ≠ 0x2D := by decide
  exact hall c (lowerHex_mem c h)

/-- The value of a digit string stays below the next power of sixteen. -/
theorem foldl_hex_lt (h : GoString) (n : Nat) (hhex : ∀ c ∈ h, isLowerHex c = true) :
    h.foldl (fun acc c => 16 * acc + lowerHexValue c) n < (n + 1) * 16 ^ h.length := by
  induction h generalizing n with
  | nil => simp
  | cons c cs ih =>
    have hc := (lowerHex_facts c (hhex c (by simp))).2.1
    have h1 := ih (16 * n + lowerHexValue c) (fun x hx => hhex x (List.mem_cons_of_mem _ hx))
    simp only [List.foldl_cons, List.length_cons]
    calc List.foldl (fun acc c => 16 * acc + lowerHexValue c) (16 * n + lowerHexValue c) cs
        < (16 * n + lowerHexValue c + 1) * 16 ^ cs.length := h1
      _ ≤ ((n + 1) * 16) * 16 ^ cs.length := Nat.mul_le_mul_right _ (by omega)
      _ = (n + 1) * 16 ^ (cs.length + 1) := by rw [Nat.mul_assoc, Nat.pow_succ']

/-- The loop of `ParseUint` reads lower-case hexadecimal digits without error as long as
the value fits 32 bits. -/
theorem parseUintLoop_hex (h : GoString) (n : Nat) (hhex : ∀ c ∈ h, isLowerHex c = true)
    (hfit : (n + 1) * 16 ^ h.length ≤ 2 ^ 32) :
    parseUintLoop 16 (2 ^ 32 - 1) n h =
      (h.foldl (fun acc c => 16 * acc + lowerHexValue c) n, none) := by
  induction h generalizing n with
  | nil => simp [parseUintLoop]
  | cons c cs ih =>
    obtain ⟨hd, hlt, _⟩ := lowerHex_facts c (hhex c (by simp))
    have hpow : 1 ≤ 16 ^ cs.length := Nat.one_le_pow _ _ (by norm_num)
    simp only [List.length_cons, Nat.pow_succ'] at hfit
    have hfit2 : (n + 1) * 16 * 16 ^ cs.length ≤ 2 ^ 32 := by rw [Nat.mul_assoc]; exact hfit
    have hn16 : (n + 1) * 16 ≤ 2 ^ 32 :=
      le_trans (Nat.le_mul_of_pos_right _ (by omega)) hfit2
    have hfit3 : (16 * n + lowerHexValue c + 1) * 16 ^ cs.length ≤ 2 ^ 32 :=
      le_trans (Nat.mul_le_mul_right _ (by omega)) hfit2
    have e1 : ¬ lowerHexValue c ≥ 16 := by omega
    have e2 : ¬ n ≥ (2 ^ 64 - 1) / 16 + 1 := by norm_num; omega
    have e3 : n * 16 % 2 ^ 64 = n * 16 := Nat.mod_eq_of_lt (by omega)
    have e4 : (n * 16 + lowerHexValue c) % 2 ^ 64 = n * 16 + lowerHexValue c :=
      Nat.mod_eq_of_lt (by omega)
    have e5 : ¬ (n * 16 + lowerHexValue c < n * 16 ∨ n * 16 + lowerHexValue c > 2 ^ 32 - 1) := by
      omega
    simp only [parseUintLoop, hd, e1, e2, e3, e4, e5, if_false, List.foldl_cons]
    rw [ih _ (fun x hx => hhex x (List.mem_cons_of_mem _ hx)) (by rw [Nat.mul_comm n 16]; exact hfit3)]
    rw [Nat.mul_comm n 16]

/-- `ParseInt(h, 16, 32)` on six lower-case hexadecimal digits. -/
theorem ParseInt_hex (h : GoString) (hlen : h.length = 6)
    (hhex : ∀ c ∈ h, isLowerHex c = true) :
    ParseInt h 16 32 = (((hexValue h : Nat) : Int), none) ∧ hexValue h < 2 ^ 24 := by
  have hlt : hexValue h < 2 ^ 24 := by
    have := foldl_hex_lt h 0 hhex
    rw [hlen] at this
    exact this
  refine ⟨?_, hlt⟩
  cases h with
  | nil => simp at hlen
  | cons c cs =>
    obtain ⟨_, _, _, _, hplus, hminus⟩ := lowerHex_facts c (hhex c (by simp))
    have hloop := parseUintLoop_hex (c :: cs) 0 hhex (by rw [hlen]; norm_num)
    have hu : ParseUint (c :: cs) 16 32 = (hexValue (c :: cs), none) := by
      simp only [ParseUint, List.cons_ne_nil, if_false, hloop, hexValue]
    have hc1 : ¬ (hexValue (c :: cs) ≥ 2 ^ (32 - 1)) := by
      have : (2 : Nat) ^ (32 - 1) = 2 ^ 31 := by norm_num
      omega
    simp only [ParseInt, hplus, hminus, or_self, if_false, hu, decide_False, Bool.not_false,
      true_and, Bool.false_eq_true, false_and, hc1]

/-- An RGB colour made from a 24-bit value gives the value back. -/
theorem Hex_NewHexColor (ColorValues : Color → Option Nat) (v : Nat) (hv : v < 2 ^ 24) :
    (NewHexColor v).Hex ColorValues = v := by
  have e2 : 2 ^ 24 ||| v = 2 ^ 24 + v := by
    have := Nat.mul_add_lt_is_or hv 1
    rw [Nat.mul_one] at this
    exact this.symm
  have h1 : (2 ^ 24 ||| v) &&& 2 ^ 24 ≠ 0 := by
    intro h0
    have ht : ((2 ^ 24 ||| v) &&& 2 ^ 24).testBit 24 = true := by
      simp only [Nat.testBit_and, Nat.testBit_or, Nat.testBit_two_pow_self, Bool.true_or,
        Bool.and_self]
    rw [h0] at ht
    simp at ht
  have h2 : (2 ^ 24 ||| v) &&& 0xFFFFFF = v := by
    have e : (0xFFFFFF : Nat) = 2 ^ 24 - 1 := by norm_num
    rw [e, Nat.and_pow_two_sub_one_eq_mod, e2]
    omega
  simp only [Color.Hex, NewHexColor, ColorIsRGB, h1, ne_eq, not_false_eq_true, if_true, h2]

/-- Padding with `0` on the left, up to the width `k`. -/
theorem hexDigits_pad (h : GoString) (hhex : ∀ c ∈ h, isLowerHex c = true) (hne : h ≠ []) :
    ∀ fuel, h.length ≤ fuel →
      (hexDigits fuel (hexValue h)).length ≤ h.length ∧
        List.replicate (h.length - (hexDigits fuel (hexValue h)).length) 0x30 ++
          hexDigits fuel (hexValue h) = h := by
  induction h using List.reverseRecOn with
  | nil => exact absurd rfl hne
  | append_singleton h' c ih =>
    intro fuel hfuel
    obtain ⟨_, hlt, hback, _⟩ := lowerHex_facts c (hhex c (by simp))
    have hval : hexValue (h' ++ [c]) = 16 * hexValue h' + lowerHexValue c := by
      simp [hexValue, List.foldl_append]
    simp only [List.length_append, List.length_singleton] at hfuel ⊢
    obtain ⟨fuel', rfl⟩ : ∃ f, fuel = f + 1 := ⟨fuel - 1, by omega⟩
    by_cases hz : hexValue h' = 0
    · have hval0 : hexValue (h' ++ [c]) = lowerHexValue c := by rw [hval, hz]; omega
      rw [hval0]
      simp only [hexDigits, hlt, if_true, hback, List.length_singleton]
      refine ⟨by omega, ?_⟩
      by_cases hnil : h' = []
      · simp [hnil]
      · obtain ⟨_, hpad⟩ := ih (fun x hx => hhex x (by simp [hx])) hnil h'.length (Nat.le_refl _)
        obtain ⟨m, hm⟩ : ∃ m, h'.length = m + 1 :=
          ⟨h'.length - 1, by have := List.length_pos.mpr hnil; omega⟩
        rw [hz, hm] at hpad
        simp only [hexDigits, show (0 : Nat) < 16 by norm_num, if_true,
          List.length_singleton, Nat.add_sub_cancel] at hpad
        have h0 : hexDigit 0 = 0x30 := by decide
        rw [h0, ← List.replicate_succ'] at hpad
        rw [Nat.add_sub_cancel, hm, hpad]
    · rw [hval]
      have hbig : ¬ 16 * hexValue h' + lowerHexValue c < 16 := by omega
      have hdiv : (16 * hexValue h' + lowerHexValue c) / 16 = hexValue h' := by omega
      have hmod : (16 * hexValue h' + lowerHexValue c) % 16 = lowerHexValue c := by omega
      have hnil : h' ≠ [] := by
        intro hnil
        simp [hnil, hexValue] at hz
      obtain ⟨hle, hpad⟩ := ih (fun x hx => hhex x (by simp [hx])) hnil fuel' (by omega)
      simp only [hexDigits, hbig, if_false, hdiv, hmod, hback, List.length_append,
        List.length_singleton]
      refine ⟨by omega, ?_⟩
      rw [Nat.add_sub_add_right, ← List.append_assoc, hpad]

/-- `%06x` writes a 24-bit value as its six lower-case hexadecimal digits. -/
theorem sprintfHex06_hexValue (h : GoString) (hlen : h.length = 6)
    (hhex : ∀ c ∈ h, isLowerHex c = true) :
    sprintfHex06 ((hexValue h : Nat) : Int) = h := by
  have hne : h ≠ [] := by
    intro hnil
    simp [hnil] at hlen
  obtain ⟨_, hpad⟩ := hexDigits_pad h hhex hne 8 (by omega)
  have hneg : ¬ (((hexValue h : Nat) : Int) < 0) := by omega
  simp only [sprintfHex06, hneg, decide_False, Bool.false_eq_true, if_false, Int.natAbs_ofNat]
  rw [hlen] at hpad
  exact hpad

/-- C7. For every string `h` of exactly six lower-case hexadecimal digits,
`hexStringToColor("#" + h)` is a colour whose `Hex()` value is the integer denoted by `h`,
and `colortoHexString` turns it back into `"#" + h`. -/
theorem C7_hex_round_trip (ColorValues : Color → Option Nat) (h : GoString)
    (hlen : h.length = 6) (hhex : ∀ c ∈ h, isLowerHex c = true) :
    (hexStringToColor (utf8 "#" ++ h)).Hex ColorValues = hexValue h ∧
      colortoHexString ColorValues (hexStringToColor (utf8 "#" ++ h)) = utf8 "#" ++ h := by
  obtain ⟨hparse, hlt⟩ := ParseInt_hex h hlen hhex
  have hsharp : utf8 "#" = [0x23] := by decide
  have hempty : utf8 "" = [] := by decide
  have hno : 0x23 ∉ h := fun hmem => (lowerHex_facts _ (hhex _ hmem)).2.2.2.1 rfl
  have hrepl : ReplaceAll (utf8 "#" ++ h) (utf8 "#") (utf8 "") = h := by
    have h1 := replaceGo_match [0x23] [] h (by simp)
    have h2 := replaceGo_copy [0x23] [] h [] 0x23 rfl hno
    simp only [List.append_nil, replaceGo] at h2
    simp only [ReplaceAll, hsharp, hempty, List.cons_ne_nil, if_false, h1, List.nil_append, h2]
  have hbits : toInt32Bits ((hexValue h : Nat) : Int) = hexValue h := by
    unfold toInt32Bits
    have : ((hexValue h : Nat) : Int) % 2 ^ 32 = ((hexValue h : Nat) : Int) :=
      Int.emod_eq_of_lt (by omega) (by omega)
    rw [this, Int.toNat_ofNat]
  have hcolor : hexStringToColor (utf8 "#" ++ h) = NewHexColor (hexValue h) := by
    simp only [hexStringToColor, hrepl, hparse, hbits]
  have hhexv := Hex_NewHexColor ColorValues (hexValue h) hlt
  refine ⟨by rw [hcolor, hhexv], ?_⟩
  have hval : int32Value (hexValue h) = ((hexValue h : Nat) : Int) := by
    have : hexValue h < 2 ^ 31 := by omega
    simp only [int32Value, this, if_true]
  simp only [colortoHexString, hcolor, hhexv, hval, sprintfHex06_hexValue h hlen hhex]

/-- C7 at three entries of the table `colorPairs`: `#bc8f8f`, `#00ff7f` and `#ffffff`. -/
theorem C7_witness :
    ((hexStringToColor (utf8 "#" ++ utf8 "bc8f8f")).Hex (fun _ => none) = 0xbc8f8f ∧
        colortoHexString (fun _ => none) (hexStringToColor (utf8 "#" ++ utf8 "bc8f8f")) =
          utf8 "#" ++ utf8 "bc8f8f") ∧
      ((hexStringToColor (utf8 "#" ++ utf8 "00ff7f")).Hex (fun _ => none) = 0x00ff7f ∧
        colortoHexString (fun _ => none) (hexStringToColor (utf8 "#" ++ utf8 "00ff7f")) =
          utf8 "#" ++ utf8 "00ff7f") ∧
      ((hexStringToColor (utf8 "#" ++ utf8 "ffffff")).Hex (fun _ => none) = 0xffffff ∧
        colortoHexString (fun _ => none) (hexStringToColor (utf8 "#" ++ utf8 "ffffff")) =
          utf8 "#" ++ utf8 "ffffff") :=
  ⟨C7_hex_round_trip (fun _ => none) (utf8 "bc8f8f") (by decide) (by decide),
    C7_hex_round_trip (fun _ => none) (utf8 "00ff7f") (by decide) (by decide),
    C7_hex_round_trip (fun _ => none) (utf8 "ffffff") (by decide) (by decide)⟩

/-! ## Sessions -/

/-- `testAuth` stores the token of a successful login and otherwise keeps the old one. -/
theorem testAuth_authtoken {σ : Type} (session : viewerSession σ)
    (auth : Except GoError authResponse) (token : Except GoError tokenResponse) :
    (session.testAuth (stubClient auth token)).authtoken =
      ((Event.testAuth auth token).token?).getD session.authtoken := by
  cases auth with
  | error e =>
    simp [viewerSession.testAuth, viewerSession.login, stubClient, viewerSession.logError,
      Event.token?]
  | ok a =>
    cases token with
    | error e =>
      simp [viewerSession.testAuth, viewerSession.login, stubClient, viewerSession.logError,
        Event.token?]
    | ok t =>
      simp [viewerSession.testAuth, viewerSession.login, stubClient, viewerSession.logInfo,
        Event.token?]

/-- `logout` leaves the token empty. -/
theorem logout_authtoken {σ : Type} (kr : Keyring σ) (session : viewerSession σ) :
    (session.logout kr).authtoken = [] := by
  unfold viewerSession.logout
  cases h : session.removeCredentials kr with
  | mk err s =>
    cases err with
    | none => rfl
    | some e => rfl

/-- C8. With the two network calls as stubs: when `authenticate` succeeds and `getToken`
succeeds with the bearer token `k`, `login` returns `k` without error and `testAuth` leaves
`authtoken = k`; when `authenticate` fails, `login` returns the empty token and an error
wrapping the cause under `could not log in`, `getToken` is not called, and `testAuth` leaves
`authtoken` as it was; when `getToken` fails, the same with `could not authenticate in`.
In every case `username` and `password` are unchanged. -/
theorem C8_login_testAuth {σ : Type} (api : AuthClient) (session : viewerSession σ) :
    (∀ auth token, api.authenticate session.username session.password = .ok auth →
        api.getToken auth.Data.SubscriptionToken = .ok token →
        (session.login api).1 = (token.Token, none) ∧
          (session.testAuth api).authtoken = token.Token) ∧
      (∀ err, api.authenticate session.username session.password = .error err →
        (session.login api).1 = ([], some (.wrap (utf8 "could not log in") err)) ∧
          (session.login api).2 = [.authenticate session.username session.password] ∧
          (session.testAuth api).authtoken = session.authtoken) ∧
      (∀ auth err, api.authenticate session.username session.password = .ok auth →
        api.getToken auth.Data.SubscriptionToken = .error err →
        (session.login api).1 = ([], some (.wrap (utf8 "could not authenticate in") err)) ∧
          (session.testAuth api).authtoken = session.authtoken) ∧
      (session.testAuth api).username = session.username ∧
      (session.testAuth api).password = session.password := by
  refine ⟨?_, ?_, ?_, ?_, ?_⟩
  · intro auth token h1 h2
    simp [viewerSession.testAuth, viewerSession.login, h1, h2, viewerSession.logInfo]
  · intro err h1
    simp [viewerSession.testAuth, viewerSession.login, h1, viewerSession.logError]
  · intro auth err h1 h2
    simp [viewerSession.testAuth, viewerSession.login, h1, h2, viewerSession.logError]
  · unfold viewerSession.testAuth
    cases h : (session.login api).1 with
    | mk token err => cases err <;> rfl
  · unfold viewerSession.testAuth
    cases h : (session.login api).1 with
    | mk token err => cases err <;> rfl

/-- C8 at concrete stubs: a login that succeeds with the token `k` on a session holding the
token `old`, and one that fails at the first step. -/
theorem C8_witness :
    ((exampleSession (utf8 "u") (utf8 "p") (utf8 "old")).login
          (stubClient exampleAuth (exampleToken (utf8 "k")))).1 = (utf8 "k", none) ∧
      ((exampleSession (utf8 "u") (utf8 "p") (utf8 "old")).testAuth
          (stubClient exampleAuth (exampleToken (utf8 "k")))).authtoken = utf8 "k" ∧
      ((exampleSession (utf8 "u") (utf8 "p") (utf8 "old")).testAuth
          (stubClient (.error (.new (utf8 "boom"))) (exampleToken (utf8 "k")))).authtoken =
        utf8 "old" :=
  ⟨((C8_login_testAuth (stubClient exampleAuth (exampleToken (utf8 "k")))
      (exampleSession (utf8 "u") (utf8 "p") (utf8 "old"))).1 _ _ rfl rfl).1,
    ((C8_login_testAuth (stubClient exampleAuth (exampleToken (utf8 "k")))
      (exampleSession (utf8 "u") (utf8 "p") (utf8 "old"))).1 _ _ rfl rfl).2,
    ((C8_login_testAuth (stubClient (.error (.new (utf8 "boom"))) (exampleToken (utf8 "k")))
      (exampleSession (utf8 "u") (utf8 "p") (utf8 "old"))).2.1 _ rfl).2.2⟩

/-- The token to expect after one more call. -/
theorem lastToken?_append (events : List Event) (e : Event) :
    lastToken? (events ++ [e]) =
      if e.isLogout then none else (e.token?).orElse (fun _ => lastToken? events) := by
  cases e with
  | logout => simp [lastToken?, sinceLogout, Event.isLogout]
  | testAuth auth token =>
    cases h : (Event.testAuth auth token).token? <;>
      simp [lastToken?, sinceLogout, Event.isLogout, List.takeWhile_cons, h]

/-- The token a session holds after a sequence of calls. -/
theorem run_authtoken {σ : Type} (kr : Keyring σ) (session : viewerSession σ)
    (events : List Event) (h0 : session.authtoken = []) :
    (session.run kr events).authtoken = (lastToken? events).getD [] := by
  induction events using List.reverseRecOn with
  | nil => simp [viewerSession.run, lastToken?, sinceLogout, h0]
  | append_singleton es e ih =>
    have hrun : session.run kr (es ++ [e]) = (session.run kr es).step kr e := by
      simp [viewerSession.run, List.foldl_append]
    rw [hrun, lastToken?_append]
    cases e with
    | logout => simp [viewerSession.step, logout_authtoken, Event.isLogout]
    | testAuth auth token =>
      simp only [viewerSession.step, testAuth_authtoken, ih, Event.isLogout,
        Bool.false_eq_true, if_false]
      cases (Event.testAuth auth token).token? <;> simp

/-- C9 as stated fails: after a login that succeeds with the token `k` and a login that
fails, with no logout, the token is still `k`, although the most recent login attempt did
not succeed. -/
theorem C9_counterexample :
    ¬ ((((exampleSession (utf8 "u") (utf8 "p") []).run exampleKeyring
          [.testAuth exampleAuth (exampleToken (utf8 "k")),
           .testAuth (.error (.new (utf8 "boom"))) (exampleToken (utf8 "k"))]).authtoken ≠ []) ↔
        lastAttemptSucceeded
          [.testAuth exampleAuth (exampleToken (utf8 "k")),
           .testAuth (.error (.new (utf8 "boom"))) (exampleToken (utf8 "k"))] = true) := by
  decide

/-- C9, amended. Starting from a session with empty `authtoken`, after every finite
sequence of `testAuth` and `logout` calls `authtoken` is the bearer token of the most recent
successful login attempt made after the last `logout`, and empty when there is none; so it
is non-empty exactly when there is such an attempt and its token is non-empty. -/
theorem C9_token_invariant {σ : Type} (kr : Keyring σ) (session : viewerSession σ)
    (events : List Event) (h0 : session.authtoken = []) :
    (session.run kr events).authtoken = (lastToken? events).getD [] ∧
      ((session.run kr events).authtoken ≠ [] ↔
        ∃ k, lastToken? events = some k ∧ k ≠ []) := by
  have h := run_authtoken kr session events h0
  refine ⟨h, ?_⟩
  rw [h]
  cases lastToken? events <;> simp

/-- C9, amended, on a login that succeeds, a login that fails, a logout and a login that
succeeds with another token. -/
theorem C9_witness :
    ((exampleSession (utf8 "u") (utf8 "p") []).run exampleKeyring
        [.testAuth exampleAuth (exampleToken (utf8 "k")),
         .testAuth (.error (.new (utf8 "boom"))) (exampleToken (utf8 "k")),
         .logout,
         .testAuth exampleAuth (exampleToken (utf8 "k2"))]).authtoken =
      (lastToken?
        [.testAuth exampleAuth (exampleToken (utf8 "k")),
         .testAuth (.error (.new (utf8 "boom"))) (exampleToken (utf8 "k")),
         .logout,
         .testAuth exampleAuth (exampleToken (utf8 "k2"))]).getD [] :=
  (C9_token_invariant exampleKeyring (exampleSession (utf8 "u") (utf8 "p") [])
    [.testAuth exampleAuth (exampleToken (utf8 "k")),
     .testAuth (.error (.new (utf8 "boom"))) (exampleToken (utf8 "k")),
     .logout,
     .testAuth exampleAuth (exampleToken (utf8 "k2"))] rfl).1

/-- C10. For every session state and every outcome of credential removal (no store
configured, removal of the username fails, removal of the password fails, both succeed),
the session's `authtoken` is the empty string after `logout`. -/
theorem C10_logout_clears_authtoken {σ : Type} (kr : Keyring σ) (session : viewerSession σ) :
    (session.logout kr).authtoken = [] :=
  logout_authtoken kr session

/-! ## Credential removal -/

/-- C11 as stated fails: on a store where the removal of `username` succeeds and the
removal of `password` fails, `logout` leaves `username` empty, not as it was. -/
theorem C11_counterexample :
    ¬ (((exampleStoreSession (utf8 "u") (utf8 "p") (utf8 "k")).logout
            (exampleFailingKeyring (utf8 "password"))).username = utf8 "u" ∧
        ((exampleStoreSession (utf8 "u") (utf8 "p") (utf8 "k")).logout
            (exampleFailingKeyring (utf8 "password"))).password = utf8 "p") := by
  decide

/-- C11, amended. `logout` (through `removeCredentials`) clears each of `username` and
`password` once the removal of its key has succeeded: with no store configured, or when
the removal of `username` fails (the removal of `password` is then not tried), both fields
are as before; when the removal of `username` succeeds and that of `password` fails,
`username` is empty and `password` is as before; when both succeed, both are empty. -/
theorem C11_logout_credentials {σ : Type} (kr : Keyring σ) (session : viewerSession σ) :
    (session.ring = none →
        (session.logout kr).username = session.username ∧
          (session.logout kr).password = session.password) ∧
      (∀ ring err ring1, session.ring = some ring →
        kr.Remove ring (utf8 "username") = (some err, ring1) →
        (session.logout kr).username = session.username ∧
          (session.logout kr).password = session.password ∧
          (session.logout kr).ring = some ring1) ∧
      (∀ ring ring1 err ring2, session.ring = some ring →
        kr.Remove ring (utf8 "username") = (none, ring1) →
        kr.Remove ring1 (utf8 "password") = (some err, ring2) →
        (session.logout kr).username = [] ∧
          (session.logout kr).password = session.password) ∧
      (∀ ring ring1 ring2, session.ring = some ring →
        kr.Remove ring (utf8 "username") = (none, ring1) →
        kr.Remove ring1 (utf8 "password") = (none, ring2) →
        (session.logout kr).username = [] ∧ (session.logout kr).password = []) := by
  refine ⟨?_, ?_, ?_, ?_⟩
  · intro h
    simp [viewerSession.logout, viewerSession.removeCredentials, h, viewerSession.logError]
  · intro ring err ring1 h h1
    simp [viewerSession.logout, viewerSession.removeCredentials, h, h1, viewerSession.logError]
  · intro ring ring1 err ring2 h h1 h2
    simp [viewerSession.logout, viewerSession.removeCredentials, h, h1, h2,
      viewerSession.logError]
  · intro ring ring1 ring2 h h1 h2
    simp [viewerSession.logout, viewerSession.removeCredentials, h, h1, h2,
      viewerSession.logInfo]

/-- C11, amended, on four concrete stores: none, one that fails on `username`, one that
fails on `password`, one that succeeds. -/
theorem C11_witness :
    (((exampleSession (utf8 "u") (utf8 "p") (utf8 "k")).logout exampleKeyring).username =
          utf8 "u" ∧
        ((exampleSession (utf8 "u") (utf8 "p") (utf8 "k")).logout exampleKeyring).password =
          utf8 "p") ∧
      (((exampleStoreSession (utf8 "u") (utf8 "p") (utf8 "k")).logout
            (exampleFailingKeyring (utf8 "username"))).username = utf8 "u" ∧
        ((exampleStoreSession (utf8 "u") (utf8 "p") (utf8 "k")).logout
            (exampleFailingKeyring (utf8 "username"))).password = utf8 "p") ∧
      (((exampleStoreSession (utf8 "u") (utf8 "p") (utf8 "k")).logout
            (exampleFailingKeyring (utf8 "password"))).username = [] ∧
        ((exampleStoreSession (utf8 "u") (utf8 "p") (utf8 "k")).logout
            (exampleFailingKeyring (utf8 "password"))).password = utf8 "p") ∧
      (((exampleStoreSession (utf8 "u") (utf8 "p") (utf8 "k")).logout exampleKeyring).username =
          [] ∧
        ((exampleStoreSession (utf8 "u") (utf8 "p") (utf8 "k")).logout exampleKeyring).password =
          []) :=
  ⟨(C11_logout_credentials exampleKeyring
      (exampleSession (utf8 "u") (utf8 "p") (utf8 "k"))).1 rfl,
    let h := (C11_logout_credentials (exampleFailingKeyring (utf8 "username"))
      (exampleStoreSession (utf8 "u") (utf8 "p") (utf8 "k"))).2.1 () _ () rfl rfl
    ⟨h.1, h.2.1⟩,
    (C11_logout_credentials (exampleFailingKeyring (utf8 "password"))
      (exampleStoreSession (utf8 "u") (utf8 "p") (utf8 "k"))).2.2.1 () () _ () rfl rfl rfl,
    (C11_logout_credentials exampleKeyring
      (exampleStoreSession (utf8 "u") (utf8 "p") (utf8 "k"))).2.2.2 () () () rfl rfl rfl⟩

/-! ## The split into program and arguments -/

/-- What `runCustomCommand` does once the URL is resolved. -/
theorem runCustomCommand_of_url (windows : Bool)
    (getPlayableURL : GoString → GoString → Except GoError GoString)
    (runCmd : GoString → List GoString → Option GoError)
    (authtoken : GoString) (cc : commandContext) (u : GoString)
    (hurl : getPlayableURL cc.EpID authtoken = .ok u) :
    runCustomCommand windows getPlayableURL runCmd authtoken cc =
      match cc.CustomOptions.Command.map (substituteToken windows u cc.Titles) with
      | [] => .indexPanic cc.CustomOptions.Command []
      | name :: args =>
        .ran cc.CustomOptions.Command (name :: args) name args (runCmd name args) := by
  have hloop : ∀ l : List GoString,
      (List.range l.length).foldl (fun tmp i => substituteAt windows u cc.Titles tmp i) l =
        l.map (substituteToken windows u cc.Titles) := by
    intro l
    have h := foldl_range_set_eq_map (substituteToken windows u cc.Titles) [] l
    simpa only [substituteAt_eq_set] using h
  unfold runCustomCommand
  simp only [hurl, copy_template, hloop]
  cases hmap : cc.CustomOptions.Command.map (substituteToken windows u cc.Titles) <;> rfl

/-- C13. In `runCustomCommand`, when URL resolution succeeds, the split of the substituted
vector into the program `tmpCommand[0]` and the arguments `tmpCommand[1:]` is in bounds
exactly when the template has at least one token: for a non-empty template the program is
the first substituted token and the arguments are the remaining ones, for an empty template
the access `tmpCommand[0]` is out of range, a panic and not a returned error; when URL
resolution fails the function returns that error before any indexing or process spawn, for
every template. -/
theorem C13_runCustomCommand_split (windows : Bool)
    (getPlayableURL : GoString → GoString → Except GoError GoString)
    (runCmd : GoString → List GoString → Option GoError)
    (authtoken : GoString) (cc : commandContext) :
    (∀ u, getPlayableURL cc.EpID authtoken = .ok u →
        ((runCustomCommand windows getPlayableURL runCmd authtoken cc).isIndexPanic = false ↔
            cc.CustomOptions.Command ≠ []) ∧
          (∀ first rest, cc.CustomOptions.Command = first :: rest →
            runCustomCommand windows getPlayableURL runCmd authtoken cc =
              .ran (first :: rest)
                (substituteToken windows u cc.Titles first ::
                  rest.map (substituteToken windows u cc.Titles))
                (substituteToken windows u cc.Titles first)
                (rest.map (substituteToken windows u cc.Titles))
                (runCmd (substituteToken windows u cc.Titles first)
                  (rest.map (substituteToken windows u cc.Titles)))) ∧
          (cc.CustomOptions.Command = [] →
            runCustomCommand windows getPlayableURL runCmd authtoken cc = .indexPanic [] [])) ∧
      (∀ err, getPlayableURL cc.EpID authtoken = .error err →
        runCustomCommand windows getPlayableURL runCmd authtoken cc = .urlError err) := by
  refine ⟨fun u hurl => ?_, fun err herr => ?_⟩
  · have h := runCustomCommand_of_url windows getPlayableURL runCmd authtoken cc u hurl
    refine ⟨?_, ?_, ?_⟩
    · rw [h]
      cases hc : cc.CustomOptions.Command <;> simp [Outcome.isIndexPanic]
    · intro first rest hc
      rw [h, hc]
      rfl
    · intro hc
      rw [h, hc]
      rfl
  · unfold runCustomCommand
    simp only [herr]

/-- C13 on the template `["echo", "$title - $url"]`, on the empty template, and on the empty
template when URL resolution fails. -/
theorem C13_witness :
    runCustomCommand false (fun _ _ => .ok (utf8 "http://x")) (fun _ _ => none) []
        (exampleContext [utf8 "echo", utf8 "$title - $url"]
          { PerspectiveTitle := [], SessionTitle := utf8 "FP2", EventTitle := utf8 "ITA",
            CategoryTitle := [], EpisodeTitle := [], SeasonTitle := utf8 "2021" }) =
        .ran [utf8 "echo", utf8 "$title - $url"]
          [utf8 "echo", utf8 "2021 - ITA - FP2 - http://x"] (utf8 "echo")
          [utf8 "2021 - ITA - FP2 - http://x"] none ∧
      runCustomCommand false (fun _ _ => .ok (utf8 "http://x")) (fun _ _ => none) []
        (exampleContext []
          { PerspectiveTitle := [], SessionTitle := [], EventTitle := [],
            CategoryTitle := [], EpisodeTitle := [], SeasonTitle := [] }) =
        .indexPanic [] [] ∧
      runCustomCommand false (fun _ _ => .error (.new (utf8 "no url"))) (fun _ _ => none) []
        (exampleContext []
          { PerspectiveTitle := [], SessionTitle := [], EventTitle := [],
            CategoryTitle := [], EpisodeTitle := [], SeasonTitle := [] }) =
        .urlError (.new (utf8 "no url")) :=
  ⟨((C13_runCustomCommand_split false (fun _ _ => .ok (utf8 "http://x")) (fun _ _ => none) []
      (exampleContext [utf8 "echo", utf8 "$title - $url"]
        { PerspectiveTitle := [], SessionTitle := utf8 "FP2", EventTitle := utf8 "ITA",
          CategoryTitle := [], EpisodeTitle := [], SeasonTitle := utf8 "2021" })).1
      (utf8 "http://x") rfl).2.1 _ _ rfl,
    ((C13_runCustomCommand_split false (fun _ _ => .ok (utf8 "http://x")) (fun _ _ => none) []
      (exampleContext []
        { PerspectiveTitle := [], SessionTitle := [], EventTitle := [],
          CategoryTitle := [], EpisodeTitle := [], SeasonTitle := [] })).1
      (utf8 "http://x") rfl).2.2 rfl,
    (C13_runCustomCommand_split false (fun _ _ => .error (.new (utf8 "no url")))
      (fun _ _ => none) []
      (exampleContext []
        { PerspectiveTitle := [], SessionTitle := [], EventTitle := [],
          CategoryTitle := [], EpisodeTitle := [], SeasonTitle := [] })).2 _ rfl⟩

/-! ## Progress indicator -/

/-- A `blinkNode` that has returned takes no further round. -/
theorem blinkNodeTrace_returned (s : blinkState) (events : List BlinkEvent)
    (h : s.returned = true) : blinkNodeTrace s events = [s] := by
  cases events <;> simp [blinkNodeTrace, h]

/-- Every state of a running `blinkNode` keeps the captured text and colour; the node
carries the text it had on entry of the loop until the return, and the captured text and
colour from the return on. -/
theorem blinkNodeTrace_invariant (events : List BlinkEvent) (s : blinkState)
    (h : s.returned = false) :
    ∀ x ∈ blinkNodeTrace s events,
      (x.returned = false → x.node.text = s.node.text) ∧
        (x.returned = true →
          x.node = { text := s.originalText, color := s.originalColor }) := by
  induction events generalizing s with
  | nil =>
    intro x hx
    simp only [blinkNodeTrace, List.mem_singleton] at hx
    subst hx
    simp [h]
  | cons e es ih =>
    intro x hx
    simp only [blinkNodeTrace, h, Bool.false_eq_true, if_false, List.mem_cons] at hx
    rcases hx with hx | hx
    · subst hx
      simp [h]
    · cases e with
      | tick =>
        have hs : (blinkNodeStep s .tick).returned = false := by simp [blinkNodeStep, h]
        have := ih (blinkNodeStep s .tick) hs x hx
        simpa [blinkNodeStep] using this
      | done =>
        have hs : (blinkNodeStep s .done).returned = true := by simp [blinkNodeStep]
        rw [blinkNodeTrace_returned _ _ hs, List.mem_singleton] at hx
        subst hx
        simp [blinkNodeStep]

/-- On `n` ticks and then the signal on `done`, a running `blinkNode` goes through `n + 1`
states in its loop and then returns with the captured text and colour restored. -/
theorem blinkNodeTrace_ticksThenDone (n : Nat) (s : blinkState) (h : s.returned = false) :
    ∃ pre last, blinkNodeTrace s (ticksThenDone n) = pre ++ [last] ∧ pre.length = n + 1 ∧
      (∀ x ∈ pre, x.returned = false) ∧ last.returned = true := by
  induction n generalizing s with
  | zero =>
    refine ⟨[s], blinkNodeStep s .done, ?_, rfl, ?_, ?_⟩
    · simp [ticksThenDone, blinkNodeTrace, h]
    · simp [h]
    · simp [blinkNodeStep]
  | succ n ih =>
    have hs : (blinkNodeStep s .tick).returned = false := by simp [blinkNodeStep, h]
    obtain ⟨pre, last, htrace, hlen, hpre, hlast⟩ := ih (blinkNodeStep s .tick) hs
    refine ⟨s :: pre, last, ?_, by simp [hlen], ?_, hlast⟩
    · have hev : ticksThenDone (n + 1) = .tick :: ticksThenDone n := by
        simp [ticksThenDone, List.replicate_succ]
      rw [hev]
      simp only [blinkNodeTrace, h, Bool.false_eq_true, if_false, htrace, List.cons_append]
    · intro x hx
      rcases List.mem_cons.mp hx with hx | hx
      · subst hx; exact h
      · exact hpre x hx

/-- What `after` finds is the node as `blinkNode` left it on its return: the node of the
call with its text and colour as they were before. -/
theorem withBlink_afterSaw (LoadingColor : Color) (node : TreeNode) (hasAfter : Bool)
    (events : List BlinkEvent) (x : TreeNode)
    (h : (withBlink LoadingColor node hasAfter events).afterSaw = some x) :
    (withBlink LoadingColor node hasAfter events).restored = some x ∧ x = node := by
  unfold withBlink at h ⊢
  cases hlast : (blinkNode LoadingColor node events).getLast? with
  | none => simp [hlast] at h
  | some last =>
    simp only [hlast] at h ⊢
    cases hret : last.returned with
    | false => simp [hret] at h
    | true =>
      simp only [hret, if_true] at h ⊢
      cases hasAfter with
      | false => simp at h
      | true =>
        simp only [if_true, Option.some.injEq] at h
        have hmem : last ∈ blinkNodeTrace (blinkNodeEntry LoadingColor node) events :=
          List.mem_of_getLast?_eq_some hlast
        have hinv := (blinkNodeTrace_invariant events (blinkNodeEntry LoadingColor node) rfl
          last hmem).2 hret
        subst h
        exact ⟨rfl, by rw [hinv]; rfl⟩

/-- C12 as stated fails for a node whose own text is `loading...`: `after` finds the text
`loading...`, the restored text. -/
theorem C12_counterexample :
    ¬ (∀ x, (withBlink exampleLoadingColor { text := utf8 "loading...", color := exampleViolet }
          true (ticksThenDone 1)).afterSaw = some x →
        x.text ≠ utf8 "loading..." ∧ x.color = exampleViolet) := by
  intro h
  exact (h { text := utf8 "loading...", color := exampleViolet } (by decide)).1 rfl

/-- C12, amended. With `blinkNode` as a step function over the events tick and done on the
node: for every initial text `T` and colour `C` and every number `n` of ticks before the
signal on `done`, the node shows the text `loading...` from entry until `done`
(`n + 1` states), and when `blinkNode` returns the node has the text `T` and the colour `C`;
`after` is called only after `blinkNode` has returned and finds exactly the text `T` and the
colour `C`, so it finds the text `loading...` only when `T` is itself `loading...`, and never
a colour other than `C`. -/
theorem C12_blink_restore_before_callback (LoadingColor : Color) (T : GoString) (C : Color)
    (n : Nat) :
    (withBlink LoadingColor { text := T, color := C } true (ticksThenDone n)).shown.length =
        n + 1 ∧
      (∀ x ∈ (withBlink LoadingColor { text := T, color := C } true (ticksThenDone n)).shown,
        x.text = utf8 "loading...") ∧
      (withBlink LoadingColor { text := T, color := C } true (ticksThenDone n)).restored =
        some { text := T, color := C } ∧
      (withBlink LoadingColor { text := T, color := C } true (ticksThenDone n)).afterSaw =
        some { text := T, color := C } ∧
      (withBlink LoadingColor { text := T, color := C } false (ticksThenDone n)).afterSaw =
        none ∧
      (∀ (hasAfter : Bool) (events : List BlinkEvent) (x : TreeNode),
        (withBlink LoadingColor { text := T, color := C } hasAfter events).afterSaw = some x →
          (withBlink LoadingColor { text := T, color := C } hasAfter events).restored = some x ∧
            (x.text = utf8 "loading..." ↔ T = utf8 "loading...") ∧ x.color = C) := by
  obtain ⟨pre, last, htrace, hlen, hpre, hlast⟩ :=
    blinkNodeTrace_ticksThenDone n (blinkNodeEntry LoadingColor { text := T, color := C }) rfl
  have hinv := blinkNodeTrace_invariant (ticksThenDone n)
    (blinkNodeEntry LoadingColor { text := T, color := C }) rfl
  have hlastnode : last.node = { text := T, color := C } := by
    have := (hinv last (by rw [htrace]; simp)).2 hlast
    simpa [blinkNodeEntry] using this
  have hshape : ∀ hasAfter : Bool,
      withBlink LoadingColor { text := T, color := C } hasAfter (ticksThenDone n) =
        { shown := pre.map (fun s => s.node), restored := some { text := T, color := C },
          afterSaw := if hasAfter then some { text := T, color := C } else none } := by
    intro hasAfter
    have hgl : (pre ++ [last]).getLast? = some last := by simp
    simp only [withBlink, blinkNode, htrace, hgl, hlast, if_true, List.dropLast_concat,
      hlastnode]
  refine ⟨?_, ?_, ?_, ?_, ?_, ?_⟩
  · rw [hshape]; simp [hlen]
  · rw [hshape]
    intro x hx
    obtain ⟨s, hs, rfl⟩ := List.mem_map.mp hx
    have := (hinv s (by rw [htrace]; simp [hs])).1 (hpre s hs)
    simpa [blinkNodeEntry] using this
  · rw [hshape]
  · rw [hshape]; rfl
  · rw [hshape]; rfl
  · intro hasAfter events x hx
    obtain ⟨hres, hnode⟩ := withBlink_afterSaw LoadingColor _ hasAfter events x hx
    subst hnode
    exact ⟨hres, Iff.rfl, rfl⟩

/-- C12, amended, on the node of the test: the text `node title`, the colour violet, and a
unit of work during which the ticker fires once. -/
theorem C12_witness :
    (withBlink exampleLoadingColor { text := utf8 "node title", color := exampleViolet } true
        (ticksThenDone 1)).shown =
        [{ text := utf8 "loading...", color := exampleViolet },
         { text := utf8 "loading...", color := exampleLoadingColor }] ∧
      (withBlink exampleLoadingColor { text := utf8 "node title", color := exampleViolet } true
        (ticksThenDone 1)).restored = some { text := utf8 "node title", color := exampleViolet } ∧
      (withBlink exampleLoadingColor { text := utf8 "node title", color := exampleViolet } true
        (ticksThenDone 1)).afterSaw = some { text := utf8 "node title", color := exampleViolet } :=
  ⟨by decide,
    (C12_blink_restore_before_callback exampleLoadingColor (utf8 "node title") exampleViolet
      1).2.2.1,
    (C12_blink_restore_before_callback exampleLoadingColor (utf8 "node title") exampleViolet
      1).2.2.2.1⟩

end F1viewer
